import Mathlib

/-!
Verification of the GoQuant trade-simulator execution core.

This file shallowly embeds the cost-simulation core of the repository:

* `src/execution_engine.py` — `ExecutionEngine.simulate_order_execution`,
  `_validate_inputs`, `_create_error_result` (the book walk, marketability,
  classification and cost composition);
* `src/slippage_model.py` — `SlippageModel.calculate_slippage`,
  `_estimate_slippage_rule_based`;
* `src/impact_model.py` — `MarketImpactModel.calculate_impact`,
  `_calculate_liquidity_factor`, `update_adv`;
* `src/fee_model.py` — `MakerTakerFeeModel.calculate_fee`.

Python floats are modelled as exact rationals (`ℚ`); the one genuinely
irrational operation, `relative_size ** delta` with the default
`delta = 0.5` in the impact model, is modelled with `Real.rpow`, so the
market-impact percentage lives in `ℝ`.  Python's `round(x, n)` display
rounding is modelled as exact rounding to the nearest multiple of
`10⁻ⁿ`.  Python division by zero raises; the embedding's `ℚ` division
yields `0` there — all theorems that walk the book therefore carry
positive-price hypotheses matching the data model of the spec (§3).
The randomised `_apply_latency_simulation` is abstracted as an explicit
`perturb` argument; every claim below fixes `latency = 0`, where the
source never calls it.  Mutable engine state (the impact model's ADV
table) is passed explicitly.
-/

/-- Python's `str.lower()`, used by the source to normalise `side` and
`order_type` (ASCII arguments throughout).  Defined by mapping over the
character list so that it reduces in the kernel. -/
def String.lower (s : String) : String := String.mk (s.data.map Char.toLower)

namespace TradeSim

/-- A level-2 order-book snapshot: `bids` and `asks`, lists of
`(price, quantity)` pairs, exactly the `order_book` dict consumed by
`ExecutionEngine.simulate_order_execution`.  A Python dict missing the
`bids`/`asks` key is represented by the corresponding empty list (the
source rejects both shapes identically in `_validate_inputs`). -/
structure OrderBook where
  bids : List (ℚ × ℚ)
  asks : List (ℚ × ℚ)

/-- The result dict of `simulate_order_execution` / `_create_error_result`.
All fields are rational except `market_impact_pct`, which involves the
real-valued power law of the impact model. -/
structure ExecResult where
  executed_quantity_base : ℚ
  executed_quantity_quote : ℚ
  average_price : ℚ
  slippage_pct : ℚ
  market_impact_pct : ℝ
  fee_paid : ℚ
  execution_type : String
  warnings : List String

/-- Python's `round(x, 2)` on the exact rational value. -/
def round2 (x : ℚ) : ℚ := (round (100 * x) : ℤ) / 100

/-- Python's `round(x, 8)` on the exact rational value. -/
def round8 (x : ℚ) : ℚ := (round (100000000 * x) : ℤ) / 100000000

/-- Python's `round(x, 2)` for the real-valued impact percentage. -/
noncomputable def round_r2 (x : ℝ) : ℝ := (round (100 * x) : ℤ) / 100

/-- `MakerTakerFeeModel.calculate_fee` (src/fee_model.py:68-93): rejects
non-positive amounts and negative rates by returning `0`, otherwise
charges `amount * rate / 100`.  The `execution_type` argument only
feeds a debug log in the source. -/
def calculate_fee (order_amount fee_rate : ℚ) (execution_type : String) : ℚ :=
  if order_amount ≤ 0 ∨ fee_rate < 0 then 0
  else order_amount * (fee_rate / 100)

/-- `SlippageModel.calculate_slippage` (src/slippage_model.py:40-67):
signed percentage deviation of the average execution price from mid,
floored at `0`; returns `0` outright on non-positive prices.  The
`order_size` argument is unused in the source (log only). -/
def calculate_slippage (side : String) (mid_price executed_price order_size : ℚ) : ℚ :=
  if mid_price ≤ 0 ∨ executed_price ≤ 0 then 0
  else
    max 0
      (if side.lower = "buy"
        then ((executed_price - mid_price) / mid_price) * 100
        else ((mid_price - executed_price) / mid_price) * 100)

/-- `ExecutionEngine._validate_inputs` (src/execution_engine.py:181-214),
as one conjunction of the source's sequential early-return checks. -/
def validate_inputs (side order_type : String) (order_quantity : ℚ)
    (book : OrderBook) (order_price : Option ℚ) : Bool :=
  (side.lower == "buy" || side.lower == "sell") &&
  (order_type.lower == "market" || order_type.lower == "limit") &&
  decide (0 < order_quantity) &&
  (!book.bids.isEmpty) && (!book.asks.isEmpty) &&
  (order_type.lower != "limit" ||
    (match order_price with
     | none => false
     | some p => decide (0 < p)))

/-- First bid price or `0` (src/execution_engine.py:74). -/
def best_bid (book : OrderBook) : ℚ := ((book.bids.head?).map Prod.fst).getD 0

/-- First ask price or `0` (src/execution_engine.py:75). -/
def best_ask (book : OrderBook) : ℚ := ((book.asks.head?).map Prod.fst).getD 0

/-- `mid_price = (best_bid + best_ask) / 2` (src/execution_engine.py:76). -/
def mid_price (book : OrderBook) : ℚ := (best_bid book + best_ask book) / 2

/-- Marketability check (src/execution_engine.py:79-86): market orders
always, a buy limit iff `order_price ≥ best_ask`, a sell limit iff
`order_price ≤ best_bid`.  Validation guarantees `order_price` is
present for limit orders; `getD 0` is never the taken branch there. -/
def is_marketable (side order_type : String) (order_price : Option ℚ)
    (book : OrderBook) : Bool :=
  if order_type.lower = "limit" then
    (side.lower == "buy" && decide (best_ask book ≤ order_price.getD 0)) ||
    (side.lower == "sell" && decide (order_price.getD 0 ≤ best_bid book))
  else true

/-- The side of the book the walk consumes: asks for a buy, bids for a
sell (src/execution_engine.py:70). -/
def book_side (side : String) (book : OrderBook) : List (ℚ × ℚ) :=
  if side.lower = "buy" then book.asks else book.bids

/-- The fill loop of `simulate_order_execution`
(src/execution_engine.py:99-126), returning accumulated
`(executed_quantity_base, executed_quantity_quote)`.  Per level: a limit
order breaks at the first price beyond its limit; a buy executes
`min(remaining, price*quantity)` in quote and that over `price` in base;
a sell executes `min(remaining/price, quantity)` in base and that times
`price` in quote; the loop breaks once the remaining quote is `≤ 0.01`. -/
def walk_levels (side order_type : String) (order_price : Option ℚ) :
    ℚ → List (ℚ × ℚ) → ℚ × ℚ
  | _, [] => (0, 0)
  | remaining, (price, quantity) :: rest =>
    if order_type.lower = "limit" ∧
       ((side.lower = "buy" ∧ order_price.getD 0 < price) ∨
        (side.lower = "sell" ∧ price < order_price.getD 0)) then
      (0, 0)
    else
      let fill : ℚ × ℚ :=
        if side.lower = "buy" then
          let executable_quote := min remaining (price * quantity)
          (executable_quote / price, executable_quote)
        else
          let executable_base := min (remaining / price) quantity
          (executable_base, executable_base * price)
      if remaining - fill.2 ≤ 1 / 100 then fill
      else
        let tail_fill := walk_levels side order_type order_price (remaining - fill.2) rest
        (fill.1 + tail_fill.1, fill.2 + tail_fill.2)

/-- The executed `(base, quote)` totals of one simulation: the walk when
the order is marketable, `(0, 0)` otherwise
(src/execution_engine.py:88-126). -/
def exec_totals (side order_type : String) (order_price : Option ℚ)
    (order_quantity : ℚ) (book : OrderBook) : ℚ × ℚ :=
  if is_marketable side order_type order_price book then
    walk_levels side order_type order_price order_quantity (book_side side book)
  else (0, 0)

/-- Classification (src/execution_engine.py:92-137): `taker` when
marketable, `maker` for a non-marketable limit order, `fail` otherwise;
overridden to `partial` when `0 < executed_quote < order_quantity`. -/
def execution_type_of (marketable is_limit : Bool) (executed_quote order_quantity : ℚ) :
    String :=
  let base := if marketable then "taker" else if is_limit then "maker" else "fail"
  if 0 < executed_quote ∧ executed_quote < order_quantity then "partial" else base

/-- The ADV table of `MarketImpactModel.__init__` (src/impact_model.py:38-42). -/
def default_adv : List (String × ℚ) :=
  [("BTC-USDT", 1000000000), ("ETH-USDT", 500000000), ("default", 100000000)]

/-- `self.adv.get(symbol, self.adv["default"])` (src/impact_model.py:62).
The table is an association list; the source's table always carries a
`"default"` entry, so the final `getD 0` is never the taken branch. -/
def adv_get (adv : List (String × ℚ)) (symbol : String) : ℚ :=
  match adv.lookup symbol with
  | some v => v
  | none => ((adv.lookup "default").getD 0)

/-- `MarketImpactModel.update_adv` (src/impact_model.py:156-169): a
non-positive value is rejected with no state change; otherwise the
symbol's entry is set (dict assignment, modelled by a shadowing cons —
`adv_get` reads the first matching entry). -/
def update_adv (adv : List (String × ℚ)) (symbol : String) (new_adv : ℚ) :
    List (String × ℚ) :=
  if new_adv ≤ 0 then adv else (symbol, new_adv) :: adv

/-- `MarketImpactModel._calculate_liquidity_factor`
(src/impact_model.py:77-118): spread factor times top-5 imbalance
factor, clamped to `[0.5, 3]`; `1.5` on non-positive best prices. -/
def liquidity_factor (side : String) (book : OrderBook) : ℚ :=
  let bb := best_bid book
  let ba := best_ask book
  if bb ≤ 0 ∨ ba ≤ 0 then 3 / 2
  else
    let mid := (bb + ba) / 2
    let spread_bps := ((ba - bb) / mid) * 10000
    let bid_liquidity := ((book.bids.take 5).map Prod.snd).sum
    let ask_liquidity := ((book.asks.take 5).map Prod.snd).sum
    let imbalance_factor :=
      if side.lower = "buy" then
        1 + max 0 ((bid_liquidity - ask_liquidity) / (bid_liquidity + ask_liquidity))
      else
        1 + max 0 ((ask_liquidity - bid_liquidity) / (bid_liquidity + ask_liquidity))
    let spread_factor := 1 + spread_bps / 100
    min (max (1 / 2) (spread_factor * imbalance_factor)) 3

/-- The engine's impact model is constructed with the default
`gamma = 0.1` (src/impact_model.py:25). -/
noncomputable def gamma_default : ℝ := 1 / 10

/-- The engine's impact model is constructed with the default
`delta = 0.5` (src/impact_model.py:25). -/
noncomputable def delta_default : ℝ := 1 / 2

/-- `MarketImpactModel.calculate_impact` (src/impact_model.py:46-75):
`gamma * (order_size/ADV) ** delta`, scaled by the liquidity factor. -/
noncomputable def calculate_impact (side : String) (order_size : ℚ) (book : OrderBook)
    (symbol : String) (gamma delta : ℝ) (adv : List (String × ℚ)) : ℝ :=
  let relative_size : ℚ := order_size / adv_get adv symbol
  gamma * Real.rpow (relative_size : ℝ) delta * ((liquidity_factor side book : ℚ) : ℝ)

/-- `ExecutionEngine._create_error_result` (src/execution_engine.py:262-274). -/
def create_error_result (error_message : String) : ExecResult :=
  { executed_quantity_base := 0
    executed_quantity_quote := 0
    average_price := 0
    slippage_pct := 0
    market_impact_pct := 0
    fee_paid := 0
    execution_type := "fail"
    warnings := [error_message] }

/-- The partial-fill warning (src/execution_engine.py:137); Python's
`:.2f` interpolation is modelled by 2-decimal rounding. -/
def part_fill_warning (executed_quote order_quantity : ℚ) (etype : String) : String :=
  "Order partially filled: " ++ toString (round2 executed_quote) ++ "/" ++
    toString (round2 order_quantity) ++ " " ++ etype

/-- The large-impact warning (src/execution_engine.py:164); the
interpolated real-valued percentage text is omitted (no claim concerns
it and `ℝ` has no faithful `toString`). -/
def large_impact_warning : String := "Large market impact"

/-- The cost-composition tail of `simulate_order_execution`
(src/execution_engine.py:143-176), reached when the walked totals carry
a positive executed quote: average price, slippage, impact, fee (taker
rate exactly when the classification string equals `"taker"`), the
large-impact warning, and each field's presentation rounding. -/
noncomputable def success_result (side : String) (order_quantity : ℚ)
    (book : OrderBook) (profile : ℚ × ℚ) (adv : List (String × ℚ))
    (totals : ℚ × ℚ) (etype : String) : ExecResult :=
  let average_price := if 0 < totals.1 then totals.2 / totals.1 else 0
  let slippage_pct := calculate_slippage side (mid_price book) average_price totals.2
  let impact_pct := calculate_impact side totals.2 book "default"
    gamma_default delta_default adv
  let fee_rate := if etype = "taker" then profile.2 else profile.1
  let fee_paid := calculate_fee totals.2 fee_rate etype
  { executed_quantity_base := round8 totals.1
    executed_quantity_quote := round2 totals.2
    average_price := round2 average_price
    slippage_pct := round2 slippage_pct
    market_impact_pct := round_r2 impact_pct
    fee_paid := round2 fee_paid
    execution_type := etype
    warnings :=
      (if etype = "partial" then [part_fill_warning totals.2 order_quantity etype]
       else []) ++
      (if (1 : ℝ) < impact_pct then [large_impact_warning] else []) }

/-- `ExecutionEngine.simulate_order_execution`
(src/execution_engine.py:34-179).  `perturb` stands for the randomised
`_apply_latency_simulation`, called only when `latency > 0`;
`user_fee_profile` is `(maker, taker)` with the source's default
`(0.06, 0.08)`; `adv` is the impact model's mutable ADV table, passed
explicitly (the engine constructs its models with defaults, so
`gamma_default`/`delta_default` and symbol `"default"` are used). -/
noncomputable def simulate_order_execution (side order_type : String)
    (order_quantity : ℚ) (book0 : OrderBook) (order_price : Option ℚ)
    (latency : ℕ) (perturb : OrderBook → ℕ → OrderBook)
    (user_fee_profile : Option (ℚ × ℚ)) (adv : List (String × ℚ)) : ExecResult :=
  if validate_inputs side order_type order_quantity book0 order_price then
    let book := if 0 < latency then perturb book0 latency else book0
    let totals := exec_totals side order_type order_price order_quantity book
    if totals.2 ≤ 0 then
      create_error_result "No execution: insufficient liquidity or non-marketable limit order"
    else
      success_result side order_quantity book (user_fee_profile.getD (6 / 100, 8 / 100))
        adv totals
        (execution_type_of (is_marketable side order_type order_price book)
          (order_type.lower == "limit") totals.2 order_quantity)
  else create_error_result "Invalid input parameters"

/-- The fill loop of `SlippageModel._estimate_slippage_rule_based`
(src/slippage_model.py:114-134), returning accumulated
`(total_cost, total_quantity_base)`.  It differs from the engine's walk:
the break on exhausted size sits at the top of the loop (`remaining ≤ 0`,
no `0.01` epsilon) and there is no limit-price stop. -/
def slip_walk (side : String) : ℚ → List (ℚ × ℚ) → ℚ × ℚ
  | _, [] => (0, 0)
  | remaining, (price, quantity) :: rest =>
    if remaining ≤ 0 then (0, 0)
    else
      let fill : ℚ × ℚ :=
        if side.lower = "buy" then
          let executable_quote := min remaining (price * quantity)
          (executable_quote, executable_quote / price)
        else
          let executable_base := min (remaining / price) quantity
          (executable_base * price, executable_base)
      let tail_fill := slip_walk side (remaining - fill.1) rest
      (fill.1 + tail_fill.1, fill.2 + tail_fill.2)

/-- The average execution price computed by
`_estimate_slippage_rule_based` (src/slippage_model.py:136-147): the
walk's totals, topped up at the last book price when liquidity ran
short, then `total_cost / total_base` (or `0` on a zero base). -/
def rule_based_avg (side : String) (order_size : ℚ) (book : OrderBook) : ℚ :=
  let walked := slip_walk side order_size (book_side side book)
  let remaining := order_size - walked.1
  let totals :=
    if 0 < remaining ∧ book_side side book ≠ [] then
      let last_price := (((book_side side book).getLast?).map Prod.fst).getD 0
      (walked.1 + remaining, walked.2 + remaining / last_price)
    else walked
  if 0 < totals.2 then totals.1 / totals.2 else 0

/-- `SlippageModel._estimate_slippage_rule_based`
(src/slippage_model.py:87-150): `0` on non-positive best prices,
otherwise the walk's average against mid, routed through
`calculate_slippage`. -/
def estimate_slippage_rule_based (side : String) (order_size : ℚ) (book : OrderBook) : ℚ :=
  if best_bid book ≤ 0 ∨ best_ask book ≤ 0 then 0
  else
    calculate_slippage side (mid_price book) (rule_based_avg side order_size book) order_size

/-- Modelled from the spec: §4.2's deterministic book-walk strategy as
the claim reads it — the walk's average fill price against mid as the
SIGNED percentage, `((avg - mid)/mid)*100` for buys and
`((mid - avg)/mid)*100` for sells, with no flooring at `0`. -/
def signed_walk_slippage (side : String) (order_size : ℚ) (book : OrderBook) : ℚ :=
  if side.lower = "buy" then
    ((rule_based_avg side order_size book - mid_price book) / mid_price book) * 100
  else
    ((mid_price book - rule_based_avg side order_size book) / mid_price book) * 100

/-- Proof-side canonical form of the engine's fill loop: the market-buy
recursion.  For positive prices both the buy and sell branches of
`walk_levels` compute exactly these totals, and the limit-price stop
amounts to running it on a `takeWhile` prefix (bridging lemmas below). -/
def mwalk : ℚ → List (ℚ × ℚ) → ℚ × ℚ
  | _, [] => (0, 0)
  | remaining, (price, quantity) :: rest =>
    let executable_quote := min remaining (price * quantity)
    if remaining - executable_quote ≤ 1 / 100 then (executable_quote / price, executable_quote)
    else
      let tail_fill := mwalk (remaining - executable_quote) rest
      (executable_quote / price + tail_fill.1, executable_quote + tail_fill.2)

/-- The prefix of the contra side a limit order may cross: levels up to
the first one whose price is beyond the limit (the walk's `break`). -/
def limit_cut (side : String) (order_price : Option ℚ) (levels : List (ℚ × ℚ)) :
    List (ℚ × ℚ) :=
  if side.lower = "buy" then levels.takeWhile (fun l => l.1 ≤ order_price.getD 0)
  else levels.takeWhile (fun l => order_price.getD 0 ≤ l.1)

/-- The portion of the contra side one simulation can walk: the whole
side for market orders, the `limit_cut` prefix for limit orders. -/
def walk_scope (side order_type : String) (order_price : Option ℚ)
    (book : OrderBook) : List (ℚ × ℚ) :=
  if order_type.lower = "limit" then limit_cut side order_price (book_side side book)
  else book_side side book

/-- Total quote capacity of a list of levels: `Σ price·quantity`. -/
def quote_capacity (levels : List (ℚ × ℚ)) : ℚ :=
  (levels.map (fun l => l.1 * l.2)).sum

/-- Total base quantity carried by a list of levels: `Σ quantity`. -/
def total_quantity (levels : List (ℚ × ℚ)) : ℚ :=
  (levels.map Prod.snd).sum

/-- One engine call together with the engine state it leaves behind: at
`latency = 0` the source reads its models' state (the ADV table) and
writes nothing, so the state passes through unchanged. -/
noncomputable def simulate_with_state (side order_type : String)
    (order_quantity : ℚ) (book0 : OrderBook) (order_price : Option ℚ)
    (latency : ℕ) (perturb : OrderBook → ℕ → OrderBook)
    (user_fee_profile : Option (ℚ × ℚ)) (adv : List (String × ℚ)) :
    ExecResult × List (String × ℚ) :=
  (simulate_order_execution side order_type order_quantity book0 order_price
    latency perturb user_fee_profile adv, adv)

/-! ## Helper lemmas -/

theorem lower_buy : String.lower "buy" = "buy" := by decide

theorem lower_sell : String.lower "sell" = "sell" := by decide

theorem lower_market : String.lower "market" = "market" := by decide

theorem lower_limit : String.lower "limit" = "limit" := by decide

theorem market_ne_limit : ("market" = "limit") = False := eq_false (by decide)

theorem buy_ne_sell : ("buy" = "sell") = False := eq_false (by decide)

theorem sell_ne_buy : ("sell" = "buy") = False := eq_false (by decide)

theorem part_ne_taker : ("partial" = "taker") = False := eq_false (by decide)

theorem maker_ne_taker : ("maker" = "taker") = False := eq_false (by decide)

theorem fail_ne_taker : ("fail" = "taker") = False := eq_false (by decide)

theorem round2_mono {x y : ℚ} (h : x ≤ y) : round2 x ≤ round2 y := by
  have h1 : round (100 * x) ≤ round (100 * y) := by
    rw [round_eq, round_eq]
    exact Int.floor_mono (by linarith)
  have h2 : ((round (100 * x) : ℤ) : ℚ) ≤ ((round (100 * y) : ℤ) : ℚ) :=
    Int.cast_le.mpr h1
  unfold round2
  linarith

theorem round2_zero : round2 0 = 0 := by
  simp [round2]

theorem round2_nonneg {x : ℚ} (h : 0 ≤ x) : 0 ≤ round2 x := by
  have := round2_mono h
  rwa [round2_zero] at this

theorem round_r2_mono {x y : ℝ} (h : x ≤ y) : round_r2 x ≤ round_r2 y := by
  have h1 : round (100 * x) ≤ round (100 * y) := by
    rw [round_eq, round_eq]
    exact Int.floor_mono (by linarith)
  have h2 : ((round (100 * x) : ℤ) : ℝ) ≤ ((round (100 * y) : ℤ) : ℝ) :=
    Int.cast_le.mpr h1
  unfold round_r2
  linarith

theorem round_r2_zero : round_r2 0 = 0 := by
  simp [round_r2]

theorem round_r2_nonneg {x : ℝ} (h : 0 ≤ x) : 0 ≤ round_r2 x := by
  have := round_r2_mono h
  rwa [round_r2_zero] at this

theorem calculate_fee_nonneg (a r : ℚ) (t : String) : 0 ≤ calculate_fee a r t := by
  unfold calculate_fee
  split
  · exact le_refl 0
  · rename_i h
    push_neg at h
    exact mul_nonneg h.1.le (div_nonneg h.2 (by norm_num))

/-! ## Walk analysis

Lemmas about `mwalk`, the canonical form of the engine's fill loop:
non-negativity, the budget bound, monotonicity in the budget, strict
positivity, the stopping rule, and price-weighted bounds relating the
accumulated quote to the accumulated base (used for average-price
monotonicity on sorted books). -/

theorem sub_min_mono {r1 r2 c : ℚ} (h : r1 ≤ r2) : r1 - min r1 c ≤ r2 - min r2 c := by
  rcases le_total r1 c with h1 | h1 <;> rcases le_total r2 c with h2 | h2 <;>
    simp [min_eq_left, min_eq_right, h1, h2] <;> linarith

theorem min_eq_cap_of_cont {r c : ℚ} (hbr : ¬ (r - min r c ≤ 1 / 100)) : min r c = c := by
  rcases min_cases r c with ⟨h, _⟩ | ⟨h, _⟩
  · exfalso
    rw [h] at hbr
    simp at hbr
  · exact h

theorem pmin_mul_div_le {pmin p x : ℚ} (hpmin : 0 ≤ pmin) (hp : pmin ≤ p) (hx : 0 ≤ x) :
    pmin * (x / p) ≤ x := by
  rcases eq_or_lt_of_le (le_trans hpmin hp) with h | h
  · rw [← h]
    simp [hx]
  · have h1 : pmin * (x / p) ≤ p * (x / p) :=
      mul_le_mul_of_nonneg_right hp (div_nonneg hx h.le)
    have h2 : p * (x / p) = x := by field_simp
    linarith

theorem mwalk_nonneg {L : List (ℚ × ℚ)} {r : ℚ} (hr : 0 ≤ r)
    (hL : ∀ l ∈ L, 0 ≤ l.1 ∧ 0 ≤ l.2) :
    0 ≤ (mwalk r L).1 ∧ 0 ≤ (mwalk r L).2 := by
  induction L generalizing r with
  | nil => simp [mwalk]
  | cons hd tl ih =>
    obtain ⟨p, q⟩ := hd
    have hp : 0 ≤ p := (hL (p, q) (by simp)).1
    have hq : 0 ≤ q := (hL (p, q) (by simp)).2
    have hc : 0 ≤ p * q := mul_nonneg hp hq
    have heq : 0 ≤ min r (p * q) := le_min hr hc
    simp only [mwalk]
    split
    · exact ⟨div_nonneg heq hp, heq⟩
    · rename_i hbr
      push_neg at hbr
      have hr' : (0:ℚ) ≤ r - min r (p * q) := by linarith
      have ih' := ih hr' (fun l hl => hL l (List.mem_cons_of_mem _ hl))
      constructor
      · exact add_nonneg (div_nonneg heq hp) ih'.1
      · exact add_nonneg heq ih'.2

theorem mwalk_quote_le {L : List (ℚ × ℚ)} {r : ℚ} (hr : 0 ≤ r) :
    (mwalk r L).2 ≤ r := by
  induction L generalizing r with
  | nil => simpa [mwalk] using hr
  | cons hd tl ih =>
    obtain ⟨p, q⟩ := hd
    have heq : min r (p * q) ≤ r := min_le_left _ _
    simp only [mwalk]
    split
    · exact heq
    · rename_i hbr
      push_neg at hbr
      have hr' : (0:ℚ) ≤ r - min r (p * q) := by linarith
      have := ih hr'
      linarith

theorem mwalk_quote_mono {L : List (ℚ × ℚ)} {r1 r2 : ℚ} (hr1 : 0 ≤ r1) (h12 : r1 ≤ r2)
    (hL : ∀ l ∈ L, 0 ≤ l.1 ∧ 0 ≤ l.2) :
    (mwalk r1 L).2 ≤ (mwalk r2 L).2 := by
  induction L generalizing r1 r2 with
  | nil => simp [mwalk]
  | cons hd tl ih =>
    obtain ⟨p, q⟩ := hd
    have hc : 0 ≤ p * q := mul_nonneg (hL (p, q) (by simp)).1 (hL (p, q) (by simp)).2
    have heq : min r1 (p * q) ≤ min r2 (p * q) := min_le_min h12 le_rfl
    have hsub : r1 - min r1 (p * q) ≤ r2 - min r2 (p * q) := sub_min_mono h12
    have htl : ∀ l ∈ tl, 0 ≤ l.1 ∧ 0 ≤ l.2 := fun l hl => hL l (List.mem_cons_of_mem _ hl)
    simp only [mwalk]
    split
    · split
      · exact heq
      · rename_i hbr2
        push_neg at hbr2
        have hr2' : (0:ℚ) ≤ r2 - min r2 (p * q) := by linarith
        have := (mwalk_nonneg hr2' htl).2
        linarith
    · rename_i hbr1
      push_neg at hbr1
      split
      · exact absurd (le_trans hsub (by assumption)) (not_le.mpr hbr1)
      · rename_i hbr2
        push_neg at hbr2
        have hr1' : (0:ℚ) ≤ r1 - min r1 (p * q) := by linarith
        have := ih hr1' hsub htl
        linarith

theorem mwalk_quote_pos_head {p q : ℚ} {L : List (ℚ × ℚ)} {r : ℚ} (hr : 0 < r)
    (hpq : 0 < p * q) (hL : ∀ l ∈ L, 0 ≤ l.1 ∧ 0 ≤ l.2) :
    0 < (mwalk r ((p, q) :: L)).2 := by
  have heq : 0 < min r (p * q) := lt_min hr hpq
  simp only [mwalk]
  split
  · exact heq
  · rename_i hbr
    push_neg at hbr
    have hr' : (0:ℚ) ≤ r - min r (p * q) := by linarith
    have := (mwalk_nonneg hr' hL).2
    linarith

theorem mwalk_quote_pos {L : List (ℚ × ℚ)} {r : ℚ} (hr : 1 / 100 < r)
    (hL : ∀ l ∈ L, 0 ≤ l.1 ∧ 0 ≤ l.2) (hex : ∃ l ∈ L, 0 < l.1 * l.2) :
    0 < (mwalk r L).2 := by
  induction L generalizing r with
  | nil => simp at hex
  | cons hd tl ih =>
    obtain ⟨p, q⟩ := hd
    have htl : ∀ l ∈ tl, 0 ≤ l.1 ∧ 0 ≤ l.2 := fun l hl => hL l (List.mem_cons_of_mem _ hl)
    by_cases hpq : 0 < p * q
    · exact mwalk_quote_pos_head (by linarith) hpq htl
    · have hc : 0 ≤ p * q := mul_nonneg (hL (p, q) (by simp)).1 (hL (p, q) (by simp)).2
      have hc0 : p * q = 0 := le_antisymm (not_lt.mp hpq) hc
      have heq0 : min r (p * q) = 0 := by
        rw [hc0]
        exact min_eq_right (by linarith)
      have hex' : ∃ l ∈ tl, 0 < l.1 * l.2 := by
        rcases hex with ⟨l, hl, hpos⟩
        rcases List.mem_cons.mp hl with h | h
        · rw [h] at hpos
          exact absurd hpos (by simpa [hc0] using hpq)
        · exact ⟨l, h, hpos⟩
      simp only [mwalk, heq0]
      rw [if_neg (by simp; linarith)]
      have htail := ih (r := r - 0) (by linarith) htl hex'
      simp only [sub_zero] at htail
      simp only [sub_zero]
      linarith

theorem mwalk_stop {L : List (ℚ × ℚ)} {r : ℚ} (hr : 0 ≤ r)
    (hL : ∀ l ∈ L, 0 ≤ l.1 ∧ 0 ≤ l.2) :
    r - (mwalk r L).2 ≤ 1 / 100 ∨ (mwalk r L).2 = quote_capacity L := by
  induction L generalizing r with
  | nil =>
    right
    simp [mwalk, quote_capacity]
  | cons hd tl ih =>
    obtain ⟨p, q⟩ := hd
    have htl : ∀ l ∈ tl, 0 ≤ l.1 ∧ 0 ≤ l.2 := fun l hl => hL l (List.mem_cons_of_mem _ hl)
    simp only [mwalk]
    split
    · rename_i hbr
      left
      exact hbr
    · rename_i hbr
      push_neg at hbr
      have heqc : min r (p * q) = p * q := min_eq_cap_of_cont (not_le.mpr hbr)
      have hr' : (0:ℚ) ≤ r - min r (p * q) := by linarith
      rcases ih hr' htl with h | h
      · left
        linarith
      · right
        simp only [quote_capacity, List.map_cons, List.sum_cons]
        rw [h, heqc]
        simp [quote_capacity]

theorem mwalk_quote_ge_mul_base {pmin : ℚ} {L : List (ℚ × ℚ)} {r : ℚ}
    (hpmin : 0 ≤ pmin) (hr : 0 ≤ r) (hL : ∀ l ∈ L, pmin ≤ l.1 ∧ 0 ≤ l.2) :
    pmin * (mwalk r L).1 ≤ (mwalk r L).2 := by
  induction L generalizing r with
  | nil => simp [mwalk]
  | cons hd tl ih =>
    obtain ⟨p, q⟩ := hd
    have hp : pmin ≤ p := (hL (p, q) (by simp)).1
    have hq : 0 ≤ q := (hL (p, q) (by simp)).2
    have hp0 : 0 ≤ p := le_trans hpmin hp
    have hc : 0 ≤ p * q := mul_nonneg hp0 hq
    have heq : 0 ≤ min r (p * q) := le_min hr hc
    have hhead : pmin * (min r (p * q) / p) ≤ min r (p * q) :=
      pmin_mul_div_le hpmin hp heq
    have htl : ∀ l ∈ tl, pmin ≤ l.1 ∧ 0 ≤ l.2 := fun l hl => hL l (List.mem_cons_of_mem _ hl)
    simp only [mwalk]
    split
    · exact hhead
    · rename_i hbr
      push_neg at hbr
      have hr' : (0:ℚ) ≤ r - min r (p * q) := by linarith
      have expand : pmin * (min r (p * q) / p + (mwalk (r - min r (p * q)) tl).1)
          = pmin * (min r (p * q) / p) + pmin * (mwalk (r - min r (p * q)) tl).1 := by
        ring
      rw [expand]
      linarith [ih hr' htl]

theorem mwalk_quote_le_mul_base {pmax : ℚ} {L : List (ℚ × ℚ)} {r : ℚ}
    (hr : 0 ≤ r) (hL : ∀ l ∈ L, 0 ≤ l.1 ∧ l.1 ≤ pmax ∧ 0 ≤ l.2) :
    (mwalk r L).2 ≤ pmax * (mwalk r L).1 := by
  induction L generalizing r with
  | nil => simp [mwalk]
  | cons hd tl ih =>
    obtain ⟨p, q⟩ := hd
    have hp0 : 0 ≤ p := (hL (p, q) (by simp)).1
    have hp : p ≤ pmax := (hL (p, q) (by simp)).2.1
    have hq : 0 ≤ q := (hL (p, q) (by simp)).2.2
    have hc : 0 ≤ p * q := mul_nonneg hp0 hq
    have heq : 0 ≤ min r (p * q) := le_min hr hc
    have hhead : min r (p * q) ≤ pmax * (min r (p * q) / p) := by
      rcases eq_or_lt_of_le hp0 with h | h
      · have h0 : min r (p * q) = 0 := by
          rw [← h, zero_mul]
          exact min_eq_right hr
        simp [h0]
      · have h1 : p * (min r (p * q) / p) ≤ pmax * (min r (p * q) / p) :=
          mul_le_mul_of_nonneg_right hp (div_nonneg heq hp0)
        have h2 : p * (min r (p * q) / p) = min r (p * q) := by
          field_simp
        linarith
    have htl : ∀ l ∈ tl, 0 ≤ l.1 ∧ l.1 ≤ pmax ∧ 0 ≤ l.2 :=
      fun l hl => hL l (List.mem_cons_of_mem _ hl)
    simp only [mwalk]
    split
    · exact hhead
    · rename_i hbr
      push_neg at hbr
      have hr2 : (0:ℚ) ≤ r - min r (p * q) := by linarith
      have expand : pmax * (min r (p * q) / p + (mwalk (r - min r (p * q)) tl).1)
          = pmax * (min r (p * q) / p) + pmax * (mwalk (r - min r (p * q)) tl).1 := by
        ring
      rw [expand]
      linarith [ih hr2 htl]

theorem mwalk_marginal_ge {pmin : ℚ} {L : List (ℚ × ℚ)} {r1 r2 : ℚ}
    (hpmin : 0 ≤ pmin) (hr1 : 0 ≤ r1) (h12 : r1 ≤ r2)
    (hL : ∀ l ∈ L, pmin ≤ l.1 ∧ 0 ≤ l.2) :
    pmin * ((mwalk r2 L).1 - (mwalk r1 L).1) ≤ (mwalk r2 L).2 - (mwalk r1 L).2 := by
  induction L generalizing r1 r2 with
  | nil => simp [mwalk]
  | cons hd tl ih =>
    obtain ⟨p, q⟩ := hd
    have hp : pmin ≤ p := (hL (p, q) (by simp)).1
    have hq : 0 ≤ q := (hL (p, q) (by simp)).2
    have hp0 : 0 ≤ p := le_trans hpmin hp
    have hc : 0 ≤ p * q := mul_nonneg hp0 hq
    have he1 : 0 ≤ min r1 (p * q) := le_min hr1 hc
    have he12 : min r1 (p * q) ≤ min r2 (p * q) := min_le_min h12 le_rfl
    have hsub : r1 - min r1 (p * q) ≤ r2 - min r2 (p * q) := sub_min_mono h12
    have htl : ∀ l ∈ tl, pmin ≤ l.1 ∧ 0 ≤ l.2 := fun l hl => hL l (List.mem_cons_of_mem _ hl)
    have hhead : pmin * (min r2 (p * q) / p - min r1 (p * q) / p)
        ≤ min r2 (p * q) - min r1 (p * q) := by
      rw [div_sub_div_same]
      exact pmin_mul_div_le hpmin hp (sub_nonneg.mpr he12)
    simp only [mwalk]
    by_cases hbr1 : r1 - min r1 (p * q) ≤ 1 / 100 <;>
      by_cases hbr2 : r2 - min r2 (p * q) ≤ 1 / 100
    · rw [if_pos hbr1, if_pos hbr2]
      exact hhead
    · rw [if_pos hbr1, if_neg hbr2]
      have hr2' : (0:ℚ) ≤ r2 - min r2 (p * q) := by
        push_neg at hbr2
        linarith
      have hA2 := mwalk_quote_ge_mul_base hpmin hr2' htl
      have expand : pmin * (min r2 (p * q) / p + (mwalk (r2 - min r2 (p * q)) tl).1
            - min r1 (p * q) / p)
          = pmin * (min r2 (p * q) / p - min r1 (p * q) / p)
            + pmin * (mwalk (r2 - min r2 (p * q)) tl).1 := by
        ring
      simp only [expand]
      linarith
    · exact absurd (le_trans hsub hbr2) hbr1
    · rw [if_neg hbr1, if_neg hbr2]
      have hr1' : (0:ℚ) ≤ r1 - min r1 (p * q) := by
        push_neg at hbr1
        linarith
      have ih' := ih hr1' hsub htl
      have expand : pmin * (min r2 (p * q) / p + (mwalk (r2 - min r2 (p * q)) tl).1
            - (min r1 (p * q) / p + (mwalk (r1 - min r1 (p * q)) tl).1))
          = pmin * (min r2 (p * q) / p - min r1 (p * q) / p)
            + pmin * ((mwalk (r2 - min r2 (p * q)) tl).1
              - (mwalk (r1 - min r1 (p * q)) tl).1) := by
        ring
      simp only [expand]
      linarith


theorem le_pmax_mul_div {pmax p x : ℚ} (hp0 : 0 ≤ p) (hp : p ≤ pmax) (hx : 0 ≤ x)
    (h0 : p = 0 → x = 0) : x ≤ pmax * (x / p) := by
  rcases eq_or_lt_of_le hp0 with h | h
  · rw [h0 h.symm]
    simp
  · have h1 : p * (x / p) ≤ pmax * (x / p) :=
      mul_le_mul_of_nonneg_right hp (div_nonneg hx hp0)
    have h2 : p * (x / p) = x := by field_simp
    linarith

theorem mwalk_marginal_le {pmax : ℚ} {L : List (ℚ × ℚ)} {r1 r2 : ℚ}
    (hr1 : 0 ≤ r1) (h12 : r1 ≤ r2)
    (hL : ∀ l ∈ L, 0 ≤ l.1 ∧ l.1 ≤ pmax ∧ 0 ≤ l.2) :
    (mwalk r2 L).2 - (mwalk r1 L).2 ≤ pmax * ((mwalk r2 L).1 - (mwalk r1 L).1) := by
  induction L generalizing r1 r2 with
  | nil => simp [mwalk]
  | cons hd tl ih =>
    obtain ⟨p, q⟩ := hd
    have hp0 : 0 ≤ p := (hL (p, q) (by simp)).1
    have hp : p ≤ pmax := (hL (p, q) (by simp)).2.1
    have hq : 0 ≤ q := (hL (p, q) (by simp)).2.2
    have hc : 0 ≤ p * q := mul_nonneg hp0 hq
    have he1 : 0 ≤ min r1 (p * q) := le_min hr1 hc
    have he12 : min r1 (p * q) ≤ min r2 (p * q) := min_le_min h12 le_rfl
    have hsub : r1 - min r1 (p * q) ≤ r2 - min r2 (p * q) := sub_min_mono h12
    have htl : ∀ l ∈ tl, 0 ≤ l.1 ∧ l.1 ≤ pmax ∧ 0 ≤ l.2 :=
      fun l hl => hL l (List.mem_cons_of_mem _ hl)
    have hhead : min r2 (p * q) - min r1 (p * q)
        ≤ pmax * (min r2 (p * q) / p - min r1 (p * q) / p) := by
      rw [div_sub_div_same]
      refine le_pmax_mul_div hp0 hp (sub_nonneg.mpr he12) ?_
      intro h0
      have h1 : min r1 (p * q) = 0 := by
        rw [h0, zero_mul]
        exact min_eq_right hr1
      have h2 : min r2 (p * q) = 0 := by
        rw [h0, zero_mul]
        exact min_eq_right (le_trans hr1 h12)
      rw [h1, h2, sub_zero]
    simp only [mwalk]
    by_cases hbr1 : r1 - min r1 (p * q) ≤ 1 / 100 <;>
      by_cases hbr2 : r2 - min r2 (p * q) ≤ 1 / 100
    · rw [if_pos hbr1, if_pos hbr2]
      exact hhead
    · rw [if_pos hbr1, if_neg hbr2]
      have hr2' : (0:ℚ) ≤ r2 - min r2 (p * q) := by
        push_neg at hbr2
        linarith
      have hA2 := mwalk_quote_le_mul_base hr2' htl
      have expand : pmax * (min r2 (p * q) / p + (mwalk (r2 - min r2 (p * q)) tl).1
            - min r1 (p * q) / p)
          = pmax * (min r2 (p * q) / p - min r1 (p * q) / p)
            + pmax * (mwalk (r2 - min r2 (p * q)) tl).1 := by
        ring
      simp only [expand]
      linarith
    · exact absurd (le_trans hsub hbr2) hbr1
    · rw [if_neg hbr1, if_neg hbr2]
      have hr1' : (0:ℚ) ≤ r1 - min r1 (p * q) := by
        push_neg at hbr1
        linarith
      have ih' := ih hr1' hsub htl
      have expand : pmax * (min r2 (p * q) / p + (mwalk (r2 - min r2 (p * q)) tl).1
            - (min r1 (p * q) / p + (mwalk (r1 - min r1 (p * q)) tl).1))
          = pmax * (min r2 (p * q) / p - min r1 (p * q) / p)
            + pmax * ((mwalk (r2 - min r2 (p * q)) tl).1
              - (mwalk (r1 - min r1 (p * q)) tl).1) := by
        ring
      simp only [expand]
      linarith

theorem mwalk_avg_mono {L : List (ℚ × ℚ)} {r1 r2 : ℚ}
    (hpair : List.Pairwise (fun a b : ℚ × ℚ => a.1 ≤ b.1) L)
    (hL : ∀ l ∈ L, 0 < l.1 ∧ 0 ≤ l.2) (hr1 : 0 ≤ r1) (h12 : r1 ≤ r2) :
    (mwalk r1 L).2 * (mwalk r2 L).1 ≤ (mwalk r2 L).2 * (mwalk r1 L).1 := by
  induction L generalizing r1 r2 with
  | nil => simp [mwalk]
  | cons hd tl ih =>
    obtain ⟨p, q⟩ := hd
    have hp : 0 < p := (hL (p, q) (by simp)).1
    have hq : 0 ≤ q := (hL (p, q) (by simp)).2
    obtain ⟨hple, hpair'⟩ := List.pairwise_cons.mp hpair
    have htlpos : ∀ l ∈ tl, 0 < l.1 ∧ 0 ≤ l.2 := fun l hl => hL l (List.mem_cons_of_mem _ hl)
    have htlA : ∀ l ∈ tl, p ≤ l.1 ∧ 0 ≤ l.2 := fun l hl => ⟨hple l hl, (htlpos l hl).2⟩
    have htl0 : ∀ l ∈ tl, 0 ≤ l.1 ∧ 0 ≤ l.2 :=
      fun l hl => ⟨(htlpos l hl).1.le, (htlpos l hl).2⟩
    have hc : 0 ≤ p * q := mul_nonneg hp.le hq
    have he1 : 0 ≤ min r1 (p * q) := le_min hr1 hc
    have he12 : min r1 (p * q) ≤ min r2 (p * q) := min_le_min h12 le_rfl
    have hsub : r1 - min r1 (p * q) ≤ r2 - min r2 (p * q) := sub_min_mono h12
    simp only [mwalk]
    by_cases hbr1 : r1 - min r1 (p * q) ≤ 1 / 100 <;>
      by_cases hbr2 : r2 - min r2 (p * q) ≤ 1 / 100
    · rw [if_pos hbr1, if_pos hbr2]
      exact le_of_eq (by ring)
    · rw [if_pos hbr1, if_neg hbr2]
      have hr2' : (0:ℚ) ≤ r2 - min r2 (p * q) := by
        push_neg at hbr2
        linarith
      have hA2 := mwalk_quote_ge_mul_base hp.le hr2' htlA
      have key : min r1 (p * q) * (mwalk (r2 - min r2 (p * q)) tl).1
          ≤ (mwalk (r2 - min r2 (p * q)) tl).2 * (min r1 (p * q) / p) := by
        have k1 : min r1 (p * q) / p * (p * (mwalk (r2 - min r2 (p * q)) tl).1)
            ≤ min r1 (p * q) / p * (mwalk (r2 - min r2 (p * q)) tl).2 :=
          mul_le_mul_of_nonneg_left hA2 (div_nonneg he1 hp.le)
        have k2 : min r1 (p * q) / p * (p * (mwalk (r2 - min r2 (p * q)) tl).1)
            = min r1 (p * q) * (mwalk (r2 - min r2 (p * q)) tl).1 := by
          field_simp
          ring
        linarith
      have hsym : min r1 (p * q) * (min r2 (p * q) / p)
          = min r2 (p * q) * (min r1 (p * q) / p) := by
        ring
      have e1 : min r1 (p * q) * (min r2 (p * q) / p + (mwalk (r2 - min r2 (p * q)) tl).1)
          = min r1 (p * q) * (min r2 (p * q) / p)
            + min r1 (p * q) * (mwalk (r2 - min r2 (p * q)) tl).1 := by
        ring
      have e2 : (min r2 (p * q) + (mwalk (r2 - min r2 (p * q)) tl).2)
            * (min r1 (p * q) / p)
          = min r2 (p * q) * (min r1 (p * q) / p)
            + (mwalk (r2 - min r2 (p * q)) tl).2 * (min r1 (p * q) / p) := by
        ring
      linarith
    · exact absurd (le_trans hsub hbr2) hbr1
    · rw [if_neg hbr1, if_neg hbr2]
      have hcap1 : min r1 (p * q) = p * q := min_eq_cap_of_cont hbr1
      have hcap2 : min r2 (p * q) = p * q := min_eq_cap_of_cont hbr2
      rw [hcap1, hcap2]
      have hr1' : (0:ℚ) ≤ r1 - p * q := by
        push_neg at hbr1
        rw [hcap1] at hbr1
        linarith
      have hsub' : r1 - p * q ≤ r2 - p * q := by linarith
      have ihm := ih hpair' htlpos hr1' hsub'
      have hCm := mwalk_marginal_ge hp.le hr1' hsub' htlA
      have hcq : p * q / p = q := by field_simp
      rw [hcq]
      have hscaled := mul_le_mul_of_nonneg_left hCm hq
      dsimp only
      nlinarith [hscaled, ihm]

theorem mwalk_avg_antimono {L : List (ℚ × ℚ)} {r1 r2 : ℚ}
    (hpair : List.Pairwise (fun a b : ℚ × ℚ => b.1 ≤ a.1) L)
    (hL : ∀ l ∈ L, 0 < l.1 ∧ 0 ≤ l.2) (hr1 : 0 ≤ r1) (h12 : r1 ≤ r2) :
    (mwalk r2 L).2 * (mwalk r1 L).1 ≤ (mwalk r1 L).2 * (mwalk r2 L).1 := by
  induction L generalizing r1 r2 with
  | nil => simp [mwalk]
  | cons hd tl ih =>
    obtain ⟨p, q⟩ := hd
    have hp : 0 < p := (hL (p, q) (by simp)).1
    have hq : 0 ≤ q := (hL (p, q) (by simp)).2
    obtain ⟨hple, hpair'⟩ := List.pairwise_cons.mp hpair
    have htlpos : ∀ l ∈ tl, 0 < l.1 ∧ 0 ≤ l.2 := fun l hl => hL l (List.mem_cons_of_mem _ hl)
    have htlA : ∀ l ∈ tl, 0 ≤ l.1 ∧ l.1 ≤ p ∧ 0 ≤ l.2 :=
      fun l hl => ⟨(htlpos l hl).1.le, hple l hl, (htlpos l hl).2⟩
    have hc : 0 ≤ p * q := mul_nonneg hp.le hq
    have he1 : 0 ≤ min r1 (p * q) := le_min hr1 hc
    have he12 : min r1 (p * q) ≤ min r2 (p * q) := min_le_min h12 le_rfl
    have hsub : r1 - min r1 (p * q) ≤ r2 - min r2 (p * q) := sub_min_mono h12
    simp only [mwalk]
    by_cases hbr1 : r1 - min r1 (p * q) ≤ 1 / 100 <;>
      by_cases hbr2 : r2 - min r2 (p * q) ≤ 1 / 100
    · rw [if_pos hbr1, if_pos hbr2]
      exact le_of_eq (by ring)
    · rw [if_pos hbr1, if_neg hbr2]
      have hr2' : (0:ℚ) ≤ r2 - min r2 (p * q) := by
        push_neg at hbr2
        linarith
      have hA2 := mwalk_quote_le_mul_base hr2' htlA
      have key : (mwalk (r2 - min r2 (p * q)) tl).2 * (min r1 (p * q) / p)
          ≤ min r1 (p * q) * (mwalk (r2 - min r2 (p * q)) tl).1 := by
        have k1 : min r1 (p * q) / p * (mwalk (r2 - min r2 (p * q)) tl).2
            ≤ min r1 (p * q) / p * (p * (mwalk (r2 - min r2 (p * q)) tl).1) :=
          mul_le_mul_of_nonneg_left hA2 (div_nonneg he1 hp.le)
        have k2 : min r1 (p * q) / p * (p * (mwalk (r2 - min r2 (p * q)) tl).1)
            = min r1 (p * q) * (mwalk (r2 - min r2 (p * q)) tl).1 := by
          field_simp
          ring
        linarith
      have e1 : (min r2 (p * q) + (mwalk (r2 - min r2 (p * q)) tl).2)
            * (min r1 (p * q) / p)
          = min r2 (p * q) * (min r1 (p * q) / p)
            + (mwalk (r2 - min r2 (p * q)) tl).2 * (min r1 (p * q) / p) := by
        ring
      have e2 : min r1 (p * q) * (min r2 (p * q) / p + (mwalk (r2 - min r2 (p * q)) tl).1)
          = min r1 (p * q) * (min r2 (p * q) / p)
            + min r1 (p * q) * (mwalk (r2 - min r2 (p * q)) tl).1 := by
        ring
      have hsym : min r2 (p * q) * (min r1 (p * q) / p)
          = min r1 (p * q) * (min r2 (p * q) / p) := by
        ring
      linarith
    · exact absurd (le_trans hsub hbr2) hbr1
    · rw [if_neg hbr1, if_neg hbr2]
      have hcap1 : min r1 (p * q) = p * q := min_eq_cap_of_cont hbr1
      have hcap2 : min r2 (p * q) = p * q := min_eq_cap_of_cont hbr2
      rw [hcap1, hcap2]
      have hr1' : (0:ℚ) ≤ r1 - p * q := by
        push_neg at hbr1
        rw [hcap1] at hbr1
        linarith
      have hsub' : r1 - p * q ≤ r2 - p * q := by linarith
      have ihm := ih hpair' htlpos hr1' hsub'
      have hCm := mwalk_marginal_le hr1' hsub' htlA
      have hcq : p * q / p = q := by field_simp
      rw [hcq]
      have hscaled := mul_le_mul_of_nonneg_left hCm hq
      dsimp only
      nlinarith [hscaled, ihm]



theorem walk_levels_buy_market {side order_type : String} {op : Option ℚ}
    (hside : side.lower = "buy") (htype : order_type.lower ≠ "limit")
    (r : ℚ) (L : List (ℚ × ℚ)) :
    walk_levels side order_type op r L = mwalk r L := by
  induction L generalizing r with
  | nil => simp [walk_levels, mwalk]
  | cons hd tl ih =>
    obtain ⟨p, q⟩ := hd
    simp only [walk_levels, mwalk, hside, htype, if_true, eq_self_iff_true]
    rw [if_neg (by simp [htype])]
    split
    · rfl
    · rw [ih]

theorem walk_levels_sell_market {side order_type : String} {op : Option ℚ}
    (hside : side.lower = "sell") (htype : order_type.lower ≠ "limit")
    (r : ℚ) (L : List (ℚ × ℚ)) (hpos : ∀ l ∈ L, 0 < l.1) :
    walk_levels side order_type op r L = mwalk r L := by
  induction L generalizing r with
  | nil => simp [walk_levels, mwalk]
  | cons hd tl ih =>
    obtain ⟨p, q⟩ := hd
    have hp : 0 < p := hpos (p, q) (by simp)
    have hbq : min (r / p) q * p = min r (p * q) := by
      rw [min_mul_of_nonneg _ _ hp.le, div_mul_cancel₀ _ hp.ne', mul_comm q p]
    have hbb : min (r / p) q = min r (p * q) / p := by
      rw [← hbq]
      field_simp
    have hpp : min r (p * q) / p * p = min r (p * q) := div_mul_cancel₀ _ hp.ne'
    simp only [walk_levels, mwalk, hside, sell_ne_buy, if_false, hbb, hpp]
    rw [if_neg (by simp [htype])]
    split
    · rfl
    · rw [ih _ (fun l hl => hpos l (List.mem_cons_of_mem _ hl))]

theorem walk_levels_buy_limit {side order_type : String} {op : Option ℚ}
    (hside : side.lower = "buy") (htype : order_type.lower = "limit")
    (r : ℚ) (L : List (ℚ × ℚ)) :
    walk_levels side order_type op r L
      = mwalk r (L.takeWhile (fun l => l.1 ≤ op.getD 0)) := by
  induction L generalizing r with
  | nil => simp [walk_levels, mwalk]
  | cons hd tl ih =>
    obtain ⟨p, q⟩ := hd
    by_cases hin : p ≤ op.getD 0
    · rw [List.takeWhile_cons_of_pos (by simpa using hin)]
      simp only [walk_levels, mwalk, hside, if_true, eq_self_iff_true]
      rw [if_neg (by simpa [hside, htype] using not_lt.mpr hin)]
      split
      · rfl
      · rw [ih]
    · rw [List.takeWhile_cons_of_neg (by simpa using hin)]
      simp only [walk_levels, mwalk]
      rw [if_pos ⟨htype, Or.inl ⟨hside, by push_neg at hin; exact hin⟩⟩]

theorem walk_levels_sell_limit {side order_type : String} {op : Option ℚ}
    (hside : side.lower = "sell") (htype : order_type.lower = "limit")
    (r : ℚ) (L : List (ℚ × ℚ)) (hpos : ∀ l ∈ L, 0 < l.1) :
    walk_levels side order_type op r L
      = mwalk r (L.takeWhile (fun l => op.getD 0 ≤ l.1)) := by
  induction L generalizing r with
  | nil => simp [walk_levels, mwalk]
  | cons hd tl ih =>
    obtain ⟨p, q⟩ := hd
    have hp : 0 < p := hpos (p, q) (by simp)
    by_cases hin : op.getD 0 ≤ p
    · rw [List.takeWhile_cons_of_pos (by simpa using hin)]
      have hbq : min (r / p) q * p = min r (p * q) := by
        rw [min_mul_of_nonneg _ _ hp.le, div_mul_cancel₀ _ hp.ne', mul_comm q p]
      have hbb : min (r / p) q = min r (p * q) / p := by
        rw [← hbq]
        field_simp
      have hpp : min r (p * q) / p * p = min r (p * q) := div_mul_cancel₀ _ hp.ne'
      simp only [walk_levels, mwalk, hside, sell_ne_buy, if_false, hbb, hpp]
      rw [if_neg (by simpa [hside, htype] using not_lt.mpr hin)]
      split
      · rfl
      · rw [ih _ (fun l hl => hpos l (List.mem_cons_of_mem _ hl))]
    · rw [List.takeWhile_cons_of_neg (by simpa using hin)]
      simp only [walk_levels, mwalk]
      rw [if_pos ⟨htype, Or.inr ⟨hside, by push_neg at hin; exact hin⟩⟩]

theorem exec_totals_eq_mwalk {side order_type : String} {op : Option ℚ} {q : ℚ}
    {book : OrderBook}
    (hside : side.lower = "buy" ∨ side.lower = "sell")
    (hpos : ∀ l ∈ book_side side book, 0 < l.1)
    (hmkt : is_marketable side order_type op book = true) :
    exec_totals side order_type op q book
      = mwalk q (walk_scope side order_type op book) := by
  unfold exec_totals walk_scope limit_cut
  rw [if_pos hmkt]
  by_cases htype : order_type.lower = "limit"
  · rw [if_pos htype]
    rcases hside with hs | hs
    · rw [if_pos hs]
      exact walk_levels_buy_limit hs htype q _
    · rw [if_neg (by rw [hs]; exact (by decide : ¬("sell" : String) = "buy"))]
      exact walk_levels_sell_limit hs htype q _ hpos
  · rw [if_neg htype]
    rcases hside with hs | hs
    · exact walk_levels_buy_market hs htype q _
    · exact walk_levels_sell_market hs htype q _ hpos



theorem validate_inputs_elim {side order_type : String} {q : ℚ} {book : OrderBook}
    {op : Option ℚ} (h : validate_inputs side order_type q book op = true) :
    (side.lower = "buy" ∨ side.lower = "sell") ∧
    (order_type.lower = "market" ∨ order_type.lower = "limit") ∧
    0 < q ∧ book.bids ≠ [] ∧ book.asks ≠ [] ∧
    (order_type.lower = "limit" → 0 < op.getD 0) := by
  unfold validate_inputs at h
  simp only [Bool.and_eq_true, Bool.or_eq_true, beq_iff_eq, decide_eq_true_eq,
    Bool.not_eq_true', bne_iff_ne, ne_eq] at h
  obtain ⟨⟨⟨⟨⟨hA, hB⟩, hC⟩, hD⟩, hE⟩, hF⟩ := h
  refine ⟨hA, hB, hC, ?_, ?_, ?_⟩
  · intro hnil
    rw [hnil] at hD
    simp at hD
  · intro hnil
    rw [hnil] at hE
    simp at hE
  · intro hl
    rcases hF with h | h
    · exact absurd hl h
    · cases op with
      | none => simp at h
      | some p =>
        simp only [decide_eq_true_eq] at h
        simpa using h

theorem validate_inputs_intro {side order_type : String} {q : ℚ} {book : OrderBook}
    {op : Option ℚ}
    (hA : side.lower = "buy" ∨ side.lower = "sell")
    (hB : order_type.lower = "market" ∨ order_type.lower = "limit")
    (hC : 0 < q) (hD : book.bids ≠ []) (hE : book.asks ≠ [])
    (hF : order_type.lower = "limit" → 0 < op.getD 0) :
    validate_inputs side order_type q book op = true := by
  unfold validate_inputs
  simp only [Bool.and_eq_true, Bool.or_eq_true, beq_iff_eq, decide_eq_true_eq,
    Bool.not_eq_true', bne_iff_ne, ne_eq]
  refine ⟨⟨⟨⟨⟨hA, hB⟩, hC⟩, ?_⟩, ?_⟩, ?_⟩
  · cases hb : book.bids with
    | nil => exact absurd hb hD
    | cons a l => simp
  · cases hb : book.asks with
    | nil => exact absurd hb hE
    | cons a l => simp
  · by_cases hl : order_type.lower = "limit"
    · right
      cases op with
      | none => simpa using hF hl
      | some p => simpa using hF hl
    · left
      exact hl

theorem exists_pos_qty_of_sum_pos {L : List (ℚ × ℚ)}
    (hnn : ∀ l ∈ L, 0 ≤ l.2) (h : 0 < total_quantity L) : ∃ l ∈ L, 0 < l.2 := by
  induction L with
  | nil => simp [total_quantity] at h
  | cons hd tl ih =>
    by_cases hh : 0 < hd.2
    · exact ⟨hd, by simp, hh⟩
    · have h0 : hd.2 = 0 :=
        le_antisymm (not_lt.mp hh) (hnn hd (by simp))
      have htl : 0 < total_quantity tl := by
        simp only [total_quantity, List.map_cons, List.sum_cons, h0, zero_add] at h
        exact h
      rcases ih (fun l hl => hnn l (List.mem_cons_of_mem _ hl)) htl with ⟨l, hl, hpos⟩
      exact ⟨l, List.mem_cons_of_mem _ hl, hpos⟩

theorem mwalk_base_pos {L : List (ℚ × ℚ)} {r : ℚ}
    (hL : ∀ l ∈ L, 0 < l.1 ∧ 0 ≤ l.2) (hr : 0 ≤ r) (hq : 0 < (mwalk r L).2) :
    0 < (mwalk r L).1 := by
  induction L generalizing r with
  | nil => simp [mwalk] at hq
  | cons hd tl ih =>
    obtain ⟨p, q⟩ := hd
    have hp : 0 < p := (hL (p, q) (by simp)).1
    have hqq : 0 ≤ q := (hL (p, q) (by simp)).2
    have hc : 0 ≤ p * q := mul_nonneg hp.le hqq
    have he : 0 ≤ min r (p * q) := le_min hr hc
    have htl : ∀ l ∈ tl, 0 < l.1 ∧ 0 ≤ l.2 := fun l hl => hL l (List.mem_cons_of_mem _ hl)
    have htl0 : ∀ l ∈ tl, 0 ≤ l.1 ∧ 0 ≤ l.2 := fun l hl => ⟨(htl l hl).1.le, (htl l hl).2⟩
    simp only [mwalk] at hq ⊢
    split at hq
    · rename_i hbr
      rw [if_pos hbr]
      exact div_pos hq hp
    · rename_i hbr
      rw [if_neg hbr]
      push_neg at hbr
      have hr2 : (0:ℚ) ≤ r - min r (p * q) := by linarith
      by_cases hepos : 0 < min r (p * q)
      · have h1 : 0 < min r (p * q) / p := div_pos hepos hp
        have h2 := (mwalk_nonneg hr2 htl0).1
        linarith
      · have he0 : min r (p * q) = 0 := le_antisymm (not_lt.mp hepos) he
        rw [he0] at hq
        simp only [zero_add] at hq
        have h3 := ih htl hr2
        rw [he0] at h3
        simp only [sub_zero] at h3 hq
        have h4 := h3 hq
        have h5 : (0:ℚ) ≤ min r (p * q) / p := div_nonneg he hp.le
        rw [he0] at h5 ⊢
        simp only [zero_div, sub_zero]
        linarith

theorem calculate_slippage_nonneg (side : String) (m e s : ℚ) :
    0 ≤ calculate_slippage side m e s := by
  unfold calculate_slippage
  split
  · exact le_refl 0
  · exact le_max_left _ _

theorem liquidity_factor_pos (side : String) (book : OrderBook) :
    0 < liquidity_factor side book := by
  simp only [liquidity_factor]
  by_cases h : best_bid book ≤ 0 ∨ best_ask book ≤ 0
  · rw [if_pos h]
    norm_num
  · rw [if_neg h]
    refine lt_min ?_ (by norm_num)
    calc (0:ℚ) < 1 / 2 := by norm_num
      _ ≤ _ := le_max_left _ _


theorem gamma_default_nonneg : (0:ℝ) ≤ gamma_default := by
  unfold gamma_default
  norm_num

theorem calculate_impact_nonneg (side : String) (s : ℚ) (book : OrderBook)
    (sym : String) (adv : List (String × ℚ)) (hs : 0 ≤ s)
    (hadv : 0 ≤ adv_get adv sym) :
    0 ≤ calculate_impact side s book sym gamma_default delta_default adv := by
  unfold calculate_impact
  have h1 : (0:ℝ) ≤ Real.rpow ((s / adv_get adv sym : ℚ) : ℝ) delta_default :=
    Real.rpow_nonneg (by exact_mod_cast div_nonneg hs hadv) _
  have h2 : (0:ℝ) ≤ ((liquidity_factor side book : ℚ) : ℝ) := by
    exact_mod_cast (liquidity_factor_pos side book).le
  have := mul_nonneg (mul_nonneg gamma_default_nonneg h1) h2
  exact this

theorem calculate_impact_mono (side : String) {s1 s2 : ℚ} (book : OrderBook)
    (sym : String) (adv : List (String × ℚ)) (hs1 : 0 ≤ s1) (h12 : s1 ≤ s2)
    (hadv : 0 < adv_get adv sym) :
    calculate_impact side s1 book sym gamma_default delta_default adv
      ≤ calculate_impact side s2 book sym gamma_default delta_default adv := by
  unfold calculate_impact
  have hx1 : (0:ℝ) ≤ ((s1 / adv_get adv sym : ℚ) : ℝ) := by
    exact_mod_cast div_nonneg hs1 hadv.le
  have hx12 : ((s1 / adv_get adv sym : ℚ) : ℝ) ≤ ((s2 / adv_get adv sym : ℚ) : ℝ) := by
    have : s1 / adv_get adv sym ≤ s2 / adv_get adv sym := by gcongr
    exact_mod_cast this
  have hdel : (0:ℝ) ≤ delta_default := by
    unfold delta_default
    norm_num
  have hr := Real.rpow_le_rpow hx1 hx12 hdel
  have h2 : (0:ℝ) ≤ ((liquidity_factor side book : ℚ) : ℝ) := by
    exact_mod_cast (liquidity_factor_pos side book).le
  exact mul_le_mul_of_nonneg_right
    (mul_le_mul_of_nonneg_left hr gamma_default_nonneg) h2

/-! ## Claims -/

/-- C7: with the same snapshot, the same order parameters and
`latency = 0`, two successive engine calls return identical results, and
neither call changes the engine's mutable state (the ADV table): the
source's `simulate_order_execution` at latency 0 invokes no randomness
and writes no attribute, which the state-passing embedding
`simulate_with_state` reflects as the state flowing through unchanged. -/
theorem simulate_latency_zero_idempotent (side order_type : String)
    (order_quantity : ℚ) (book : OrderBook) (order_price : Option ℚ)
    (perturb : OrderBook → ℕ → OrderBook) (profile : Option (ℚ × ℚ))
    (adv : List (String × ℚ)) :
    (simulate_with_state side order_type order_quantity book order_price 0 perturb
        profile adv).2 = adv ∧
    (simulate_with_state side order_type order_quantity book order_price 0 perturb
        profile
        (simulate_with_state side order_type order_quantity book order_price 0 perturb
          profile adv).2).1 =
      (simulate_with_state side order_type order_quantity book order_price 0 perturb
        profile adv).1 :=
  ⟨rfl, rfl⟩

/-- C9: `update_adv` rejects every non-positive value, leaving the ADV
table unchanged — so any later `calculate_impact` sees exactly the prior
table — and sets the symbol's entry for positive values. -/
theorem update_adv_reject_and_set (adv : List (String × ℚ)) (symbol : String)
    (value : ℚ) :
    (value ≤ 0 → update_adv adv symbol value = adv ∧
      ∀ (side : String) (order_size : ℚ) (book : OrderBook) (sym : String)
        (gamma delta : ℝ),
        calculate_impact side order_size book sym gamma delta
            (update_adv adv symbol value) =
          calculate_impact side order_size book sym gamma delta adv) ∧
    (0 < value → adv_get (update_adv adv symbol value) symbol = value) := by
  constructor
  · intro hv
    have h : update_adv adv symbol value = adv := by simp [update_adv, hv]
    exact ⟨h, fun _ _ _ _ _ _ => by rw [h]⟩
  · intro hv
    simp [update_adv, not_le.mpr hv, adv_get, List.lookup]

/-- C9 witness: a rejected update with `-5` leaves the default table (and
an impact reading) unchanged; an accepted update with `7` is visible. -/
theorem update_adv_reject_and_set_witness :
    update_adv default_adv "BTC-USDT" (-5) = default_adv ∧
    calculate_impact "buy" 100 ⟨[(99, 5)], [(100, 5)]⟩ "BTC-USDT" gamma_default
        delta_default (update_adv default_adv "BTC-USDT" (-5)) =
      calculate_impact "buy" 100 ⟨[(99, 5)], [(100, 5)]⟩ "BTC-USDT" gamma_default
        delta_default default_adv ∧
    adv_get (update_adv default_adv "ETH-USDT" 7) "ETH-USDT" = 7 :=
  ⟨((update_adv_reject_and_set default_adv "BTC-USDT" (-5)).1 (by norm_num)).1,
   ((update_adv_reject_and_set default_adv "BTC-USDT" (-5)).1 (by norm_num)).2
     "buy" 100 ⟨[(99, 5)], [(100, 5)]⟩ "BTC-USDT" gamma_default delta_default,
   (update_adv_reject_and_set default_adv "ETH-USDT" 7).2 (by norm_num)⟩

/-- C10: every result of `simulate_order_execution` reports a
non-negative fee, whatever fee profile is supplied (negative rebate rates
included), because `calculate_fee` returns `0` for any negative rate or
non-positive amount and otherwise charges a non-negative proportional
fee. -/
theorem fee_paid_nonneg :
    (∀ (side order_type : String) (order_quantity : ℚ) (book : OrderBook)
      (order_price : Option ℚ) (latency : ℕ) (perturb : OrderBook → ℕ → OrderBook)
      (profile : Option (ℚ × ℚ)) (adv : List (String × ℚ)),
      0 ≤ (simulate_order_execution side order_type order_quantity book order_price
            latency perturb profile adv).fee_paid) ∧
    (∀ (amount rate : ℚ) (etype : String), rate < 0 ∨ amount ≤ 0 →
      calculate_fee amount rate etype = 0) := by
  constructor
  · intro side order_type q book op latency perturb profile adv
    simp only [simulate_order_execution]
    generalize (if 0 < latency then perturb book latency else book) = book1
    split
    · split
      · simp [create_error_result]
      · simp only [success_result]
        exact round2_nonneg (calculate_fee_nonneg _ _ _)
    · simp [create_error_result]
  · intro amount rate etype h
    unfold calculate_fee
    rw [if_pos]
    tauto

/-- C10 witness: a concrete run has a non-negative fee, and a negative
(rebate) rate yields fee `0`. -/
theorem fee_paid_nonneg_witness :
    0 ≤ (simulate_order_execution "buy" "market" 1000 ⟨[(99, 5)], [(100, 5)]⟩ none 0
          (fun b _ => b) (some (-1/100, -2/100)) default_adv).fee_paid ∧
    calculate_fee 100 (-1/100) "maker" = 0 :=
  ⟨fee_paid_nonneg.1 "buy" "market" 1000 ⟨[(99, 5)], [(100, 5)]⟩ none 0
      (fun b _ => b) (some (-1/100, -2/100)) default_adv,
   fee_paid_nonneg.2 100 (-1/100) "maker" (Or.inl (by norm_num))⟩

/-- C3: every input violating validation — side not in buy/sell, type not
in market/limit, non-positive quantity, an empty bids or asks side (a
missing book or missing key is the empty-list case of the embedding), or
a limit order with missing or non-positive limit price — yields the
`fail` error result with all numeric fields `0` and the descriptive
warning; the embedding is a total function, so no exception reaches the
caller. -/
theorem invalid_inputs_yield_fail_result (side order_type : String)
    (order_quantity : ℚ) (book : OrderBook) (order_price : Option ℚ)
    (latency : ℕ) (perturb : OrderBook → ℕ → OrderBook)
    (profile : Option (ℚ × ℚ)) (adv : List (String × ℚ))
    (h : (side.lower ≠ "buy" ∧ side.lower ≠ "sell") ∨
         (order_type.lower ≠ "market" ∧ order_type.lower ≠ "limit") ∨
         order_quantity ≤ 0 ∨ book.bids = [] ∨ book.asks = [] ∨
         (order_type.lower = "limit" ∧ order_price.getD 0 ≤ 0)) :
    simulate_order_execution side order_type order_quantity book order_price latency
        perturb profile adv = create_error_result "Invalid input parameters" := by
  have hv : validate_inputs side order_type order_quantity book order_price = false := by
    unfold validate_inputs
    rcases h with ⟨h1, h2⟩ | ⟨h1, h2⟩ | hq | hb | ha | ⟨hl, hp⟩
    · simp [h1, h2]
    · simp [h1, h2]
    · have hq' : ¬ (0 < order_quantity) := not_lt.mpr hq
      simp [hq']
    · simp [hb]
    · simp [ha]
    · cases order_price with
      | none => simp [hl]
      | some p =>
        have hp' : ¬ (0 < p) := not_lt.mpr (by simpa using hp)
        simp [hl, hp']
  simp [simulate_order_execution, hv]

/-- C3 witness: an invalid side (`"hold"`) produces the error result. -/
theorem invalid_inputs_yield_fail_result_witness :
    (("hold" : String).lower ≠ "buy" ∧ ("hold" : String).lower ≠ "sell") ∧
    simulate_order_execution "hold" "market" 100 ⟨[(99, 5)], [(100, 5)]⟩ none 0
        (fun b _ => b) none default_adv =
      create_error_result "Invalid input parameters" :=
  ⟨⟨by decide, by decide⟩,
   invalid_inputs_yield_fail_result "hold" "market" 100 ⟨[(99, 5)], [(100, 5)]⟩ none 0
     (fun b _ => b) none default_adv (Or.inl ⟨by decide, by decide⟩)⟩

/-- C1: at a concrete partial fill (buy 1000 quote against a single ask
level holding 500), the engine classifies `partial` but charges the
MAKER rate: `fee_rate = taker if execution_type == "taker" else maker`
(src/execution_engine.py:157) sends `"partial"` to the `else` branch, so
the fee is `round2(calculate_fee 500 0.06) = 0.3`, not the taker fee
`0.4` the spec (and the fee model's own partial-fill doc) prescribe. -/
theorem engine_charges_maker_rate_on_partial_fill :
    (simulate_order_execution "buy" "market" 1000 ⟨[(99, 5)], [(100, 5)]⟩ none 0
        (fun b _ => b) (some (6/100, 8/100)) default_adv).execution_type = "partial" ∧
    (simulate_order_execution "buy" "market" 1000 ⟨[(99, 5)], [(100, 5)]⟩ none 0
        (fun b _ => b) (some (6/100, 8/100)) default_adv).fee_paid =
      round2 (calculate_fee 500 (6/100) "partial") ∧
    round2 (calculate_fee 500 (6/100) "partial") = 3/10 ∧
    round2 (calculate_fee 500 (8/100) "partial") = 2/5 := by
  refine ⟨?_, ?_, ?_, ?_⟩ <;>
  · simp only [simulate_order_execution, validate_inputs, exec_totals, is_marketable,
      book_side, walk_levels, execution_type_of, success_result, mid_price, best_bid,
      best_ask, calculate_slippage, calculate_fee, round2, lower_buy, lower_market,
      market_ne_limit, buy_ne_sell, part_ne_taker]
    norm_num [market_ne_limit, buy_ne_sell, part_ne_taker]

/-- C2 counterexample: a valid non-marketable buy limit order (limit 90
below best ask 100, both book sides non-empty) does NOT come back as a
`maker` result — the zero-execution check at
src/execution_engine.py:140 returns the `fail` error result, whose
`execution_type` is `"fail"` and whose only warning is the no-execution
message, not the resting-order warning. -/
theorem nonmarketable_limit_fail_cex :
    simulate_order_execution "buy" "limit" 100 ⟨[(99, 5)], [(100, 5)]⟩ (some 90) 0
        (fun b _ => b) none default_adv =
      create_error_result "No execution: insufficient liquidity or non-marketable limit order" ∧
    (create_error_result
        "No execution: insufficient liquidity or non-marketable limit order").execution_type =
      "fail" := by
  constructor
  · simp only [simulate_order_execution, validate_inputs, exec_totals, is_marketable,
      book_side, walk_levels, execution_type_of, mid_price, best_bid, best_ask,
      lower_buy, lower_limit, market_ne_limit, buy_ne_sell, sell_ne_buy]
    norm_num [market_ne_limit, buy_ne_sell, sell_ne_buy]
  · rfl

/-- C2 amended: every valid non-marketable limit order (buy with limit
price `<` best ask, or sell with limit price `>` best bid, over a book
with at least one level on each side) yields the `fail` error result
with zero executed quantities and the warning
"No execution: insufficient liquidity or non-marketable limit order" —
the transient `maker` classification and its resting-order warning are
discarded by the zero-execution check. -/
theorem nonmarketable_limit_returns_fail (side order_type : String)
    (order_quantity : ℚ) (book : OrderBook) (order_price : Option ℚ)
    (perturb : OrderBook → ℕ → OrderBook) (profile : Option (ℚ × ℚ))
    (adv : List (String × ℚ))
    (hval : validate_inputs side order_type order_quantity book order_price = true)
    (hlim : order_type.lower = "limit")
    (hnm : (side.lower = "buy" ∧ order_price.getD 0 < best_ask book) ∨
           (side.lower = "sell" ∧ best_bid book < order_price.getD 0)) :
    simulate_order_execution side order_type order_quantity book order_price 0 perturb
        profile adv =
      create_error_result "No execution: insufficient liquidity or non-marketable limit order" := by
  have hm : is_marketable side order_type order_price book = false := by
    unfold is_marketable
    rw [if_pos hlim]
    rcases hnm with ⟨hs, hlt⟩ | ⟨hs, hlt⟩
    · simp [hs, not_le.mpr hlt, buy_ne_sell]
    · simp [hs, not_le.mpr hlt, sell_ne_buy]
  have h0 : exec_totals side order_type order_price order_quantity book = (0, 0) := by
    unfold exec_totals
    rw [hm]
    simp
  simp [simulate_order_execution, hval, h0]

/-- C2 witness: the amended theorem applied to the counterexample's
order. -/
theorem nonmarketable_limit_returns_fail_witness :
    validate_inputs "buy" "limit" 100 ⟨[(99, 5)], [(100, 5)]⟩ (some 90) = true ∧
    ("buy" : String).lower = "buy" ∧
    (90 : ℚ) < best_ask ⟨[(99, 5)], [(100, 5)]⟩ ∧
    simulate_order_execution "buy" "limit" 100 ⟨[(99, 5)], [(100, 5)]⟩ (some 90) 0
        (fun b _ => b) none default_adv =
      create_error_result "No execution: insufficient liquidity or non-marketable limit order" :=
  ⟨by decide, by decide, by norm_num [best_ask],
   nonmarketable_limit_returns_fail "buy" "limit" 100 ⟨[(99, 5)], [(100, 5)]⟩ (some 90)
     (fun b _ => b) none default_adv (by decide) (by decide)
     (Or.inl ⟨by decide, by norm_num [best_ask]⟩)⟩

/-- C6 counterexample: on a crossed book (best bid 100, best ask 90,
inputs the model accepts), the rule-based estimate walks to an average
of 90 against mid 95; the signed value is `-100/19 ≈ -5.26%`, but
`_estimate_slippage_rule_based` returns `0` — it routes through
`calculate_slippage`, which floors at `0`, so this path never returns
the signed (possibly negative) value the claim describes. -/
theorem rule_based_slippage_floored_cex :
    estimate_slippage_rule_based "buy" 90 ⟨[(100, 1)], [(90, 2)]⟩ = 0 ∧
    signed_walk_slippage "buy" 90 ⟨[(100, 1)], [(90, 2)]⟩ = -(100/19) := by
  constructor <;>
  · simp only [estimate_slippage_rule_based, signed_walk_slippage, rule_based_avg,
      slip_walk, book_side, mid_price, best_bid, best_ask, calculate_slippage,
      lower_buy, buy_ne_sell]
    norm_num [lower_buy]

/-- C6 amended: over any book with positive best bid and best ask, the
rule-based strategy is non-negative, and whenever the walked average
price is positive it returns exactly `max 0` of the signed book-walk
slippage — both call paths floor at `0`; only the sign computation
matches the claim's formula. -/
theorem rule_based_slippage_floor (side : String) (order_size : ℚ) (book : OrderBook)
    (hb : 0 < best_bid book) (ha : 0 < best_ask book) :
    0 ≤ estimate_slippage_rule_based side order_size book ∧
    (0 < rule_based_avg side order_size book →
      estimate_slippage_rule_based side order_size book =
        max 0 (signed_walk_slippage side order_size book)) := by
  have hmid : 0 < mid_price book := by
    unfold mid_price
    linarith
  constructor
  · unfold estimate_slippage_rule_based
    split
    · exact le_refl 0
    · unfold calculate_slippage
      split
      · exact le_refl 0
      · exact le_max_left _ _
  · intro havg
    unfold estimate_slippage_rule_based
    rw [if_neg (not_or.mpr ⟨not_le.mpr hb, not_le.mpr ha⟩)]
    unfold calculate_slippage signed_walk_slippage
    rw [if_neg (not_or.mpr ⟨not_le.mpr hmid, not_le.mpr havg⟩)]

/-- C6 witness: the amended theorem at a concrete normal book. -/
theorem rule_based_slippage_floor_witness :
    0 < best_bid ⟨[(99, 1)], [(100, 1)]⟩ ∧ 0 < best_ask ⟨[(99, 1)], [(100, 1)]⟩ ∧
    (0 ≤ estimate_slippage_rule_based "buy" 50 ⟨[(99, 1)], [(100, 1)]⟩ ∧
     (0 < rule_based_avg "buy" 50 ⟨[(99, 1)], [(100, 1)]⟩ →
       estimate_slippage_rule_based "buy" 50 ⟨[(99, 1)], [(100, 1)]⟩ =
         max 0 (signed_walk_slippage "buy" 50 ⟨[(99, 1)], [(100, 1)]⟩))) :=
  ⟨by norm_num [best_bid], by norm_num [best_ask],
   rule_based_slippage_floor "buy" 50 ⟨[(99, 1)], [(100, 1)]⟩
     (by norm_num [best_bid]) (by norm_num [best_ask])⟩


theorem taker_ne_part : ("taker" = "partial") = False := eq_false (by decide)

theorem maker_ne_part : ("maker" = "partial") = False := eq_false (by decide)

theorem fail_ne_part : ("fail" = "partial") = False := eq_false (by decide)

theorem execution_type_of_mem (m il : Bool) (e q : ℚ) :
    execution_type_of m il e q ∈ (["taker", "maker", "partial", "fail"] : List String) := by
  unfold execution_type_of
  by_cases h1 : 0 < e ∧ e < q <;> by_cases h2 : m = true <;> by_cases h3 : il = true <;>
    simp [h1, h2, h3]

theorem execution_type_of_partial_iff (m il : Bool) (e q : ℚ) :
    execution_type_of m il e q = "partial" ↔ 0 < e ∧ e < q := by
  unfold execution_type_of
  by_cases h1 : 0 < e ∧ e < q <;> by_cases h2 : m = true <;> by_cases h3 : il = true <;>
    simp [h1, h2, h3, taker_ne_part, maker_ne_part, fail_ne_part]

/-- C5 amended: every result carries exactly one execution type from the
closed set `{taker, maker, partial, fail}`; for valid inputs at latency 0
the type is `partial` exactly when the RAW executed quote (before the
2-decimal presentation rounding) lies strictly between 0 and the
requested quantity; the reported `executed_quantity_quote` field is the
raw value's 2-decimal rounding on success and `0` on the no-execution
path, so the claimed iff can fail on the rounded field. -/
theorem classification_partition (side order_type : String) (q : ℚ)
    (book : OrderBook) (op : Option ℚ) (perturb : OrderBook → ℕ → OrderBook)
    (profile : Option (ℚ × ℚ)) (adv : List (String × ℚ))
    (hval : validate_inputs side order_type q book op = true) :
    (simulate_order_execution side order_type q book op 0 perturb profile
        adv).execution_type ∈ (["taker", "maker", "partial", "fail"] : List String) ∧
    ((simulate_order_execution side order_type q book op 0 perturb profile
        adv).execution_type = "partial" ↔
      0 < (exec_totals side order_type op q book).2 ∧
        (exec_totals side order_type op q book).2 < q) ∧
    (0 < (exec_totals side order_type op q book).2 →
      (simulate_order_execution side order_type q book op 0 perturb profile
        adv).executed_quantity_quote = round2 (exec_totals side order_type op q book).2) ∧
    ((exec_totals side order_type op q book).2 ≤ 0 →
      (simulate_order_execution side order_type q book op 0 perturb profile
        adv).executed_quantity_quote = 0) := by
  simp only [simulate_order_execution, hval, if_true, lt_self_iff_false, if_false]
  by_cases he : (exec_totals side order_type op q book).2 ≤ 0
  · rw [if_pos he]
    refine ⟨by simp [create_error_result], ?_, ?_, ?_⟩
    · constructor
      · intro h
        exact absurd h (by simp [create_error_result, fail_ne_part])
      · rintro ⟨h1, _⟩
        exact absurd h1 (not_lt.mpr he)
    · intro h
      exact absurd h (not_lt.mpr he)
    · intro _
      rfl
  · rw [if_neg he]
    push_neg at he
    refine ⟨?_, ?_, ?_, ?_⟩
    · simp only [success_result]
      exact execution_type_of_mem _ _ _ _
    · simp only [success_result]
      exact execution_type_of_partial_iff _ _ _ _
    · intro _
      simp [success_result]
    · intro h
      exact absurd h (not_le.mpr he)

/-- C5 counterexample: a buy of 9.994 quote against ample liquidity
fills fully (raw executed = requested, hence `taker`), but the reported
`executed_quantity_quote` rounds to 9.99, which lies strictly between 0
and the requested 9.994 — refuting the claim's iff as stated on the
result field. -/
theorem rounded_quote_partial_iff_cex :
    validate_inputs "buy" "market" (9994/1000) ⟨[(1, 10)], [(2, 10)]⟩ none = true ∧
    (simulate_order_execution "buy" "market" (9994/1000) ⟨[(1, 10)], [(2, 10)]⟩ none 0
        (fun b _ => b) none default_adv).execution_type = "taker" ∧
    (simulate_order_execution "buy" "market" (9994/1000) ⟨[(1, 10)], [(2, 10)]⟩ none 0
        (fun b _ => b) none default_adv).executed_quantity_quote = 999/100 ∧
    (0:ℚ) < 999/100 ∧ (999:ℚ)/100 < 9994/1000 := by
  have hval : validate_inputs "buy" "market" (9994/1000) ⟨[(1, 10)], [(2, 10)]⟩ none
      = true :=
    validate_inputs_intro (Or.inl lower_buy) (Or.inl lower_market) (by norm_num)
      (by simp) (by simp)
      (by intro h; rw [lower_market] at h; exact absurd h (by decide))
  refine ⟨hval, ?_, ?_, by norm_num, by norm_num⟩ <;>
  · simp only [simulate_order_execution, validate_inputs, exec_totals, is_marketable,
      book_side, walk_levels, execution_type_of, success_result, mid_price, best_bid,
      best_ask, calculate_slippage, calculate_fee, round2, lower_buy, lower_market,
      market_ne_limit, buy_ne_sell, part_ne_taker]
    norm_num [market_ne_limit, buy_ne_sell, part_ne_taker, round_eq]

/-- C5 witness: the amended theorem applied to a concrete partial
fill. -/
theorem classification_partition_witness :
    validate_inputs "buy" "market" 1000 ⟨[(99, 5)], [(100, 5)]⟩ none = true ∧
    ((simulate_order_execution "buy" "market" 1000 ⟨[(99, 5)], [(100, 5)]⟩ none 0
        (fun b _ => b) none default_adv).execution_type
          ∈ (["taker", "maker", "partial", "fail"] : List String) ∧
     ((simulate_order_execution "buy" "market" 1000 ⟨[(99, 5)], [(100, 5)]⟩ none 0
        (fun b _ => b) none default_adv).execution_type = "partial" ↔
       0 < (exec_totals "buy" "market" none 1000 ⟨[(99, 5)], [(100, 5)]⟩).2 ∧
         (exec_totals "buy" "market" none 1000 ⟨[(99, 5)], [(100, 5)]⟩).2 < 1000) ∧
     (0 < (exec_totals "buy" "market" none 1000 ⟨[(99, 5)], [(100, 5)]⟩).2 →
       (simulate_order_execution "buy" "market" 1000 ⟨[(99, 5)], [(100, 5)]⟩ none 0
        (fun b _ => b) none default_adv).executed_quantity_quote
          = round2 (exec_totals "buy" "market" none 1000 ⟨[(99, 5)], [(100, 5)]⟩).2) ∧
     ((exec_totals "buy" "market" none 1000 ⟨[(99, 5)], [(100, 5)]⟩).2 ≤ 0 →
       (simulate_order_execution "buy" "market" 1000 ⟨[(99, 5)], [(100, 5)]⟩ none 0
        (fun b _ => b) none default_adv).executed_quantity_quote = 0)) :=
  ⟨by decide,
   classification_partition "buy" "market" 1000 ⟨[(99, 5)], [(100, 5)]⟩ none
     (fun b _ => b) none default_adv (by decide)⟩



theorem walk_scope_subset {side order_type : String} {op : Option ℚ} {book : OrderBook} :
    ∀ l ∈ walk_scope side order_type op book, l ∈ book_side side book := by
  intro l hl
  unfold walk_scope limit_cut at hl
  split at hl
  · split at hl <;> exact (List.takeWhile_sublist _).subset hl
  · exact hl

/-- C4 amended: for every valid marketable order at latency 0, over a
book whose walked side has positive prices and non-negative quantities,
the RAW executed quote is at most the requested quantity (the reported
field is its 2-decimal rounding on success and `0` otherwise); it is
positive whenever the requested quantity exceeds the `0.01` epsilon and
the walkable prefix (the contra side up to the limit price) carries
positive total quantity, and also whenever the top level of that prefix
has positive quantity; and the walk stops only by the epsilon rule
(remaining ≤ 0.01) or by exhausting the prefix (executing its full
quote capacity). -/
theorem marketable_walk_bounds (side order_type : String) (q : ℚ) (book : OrderBook)
    (op : Option ℚ) (perturb : OrderBook → ℕ → OrderBook)
    (profile : Option (ℚ × ℚ)) (adv : List (String × ℚ))
    (hval : validate_inputs side order_type q book op = true)
    (hmkt : is_marketable side order_type op book = true)
    (hbook : ∀ l ∈ book_side side book, 0 < l.1 ∧ 0 ≤ l.2) :
    (exec_totals side order_type op q book).2 ≤ q ∧
    (0 < (exec_totals side order_type op q book).2 →
      (simulate_order_execution side order_type q book op 0 perturb profile
        adv).executed_quantity_quote = round2 (exec_totals side order_type op q book).2) ∧
    ((exec_totals side order_type op q book).2 ≤ 0 →
      (simulate_order_execution side order_type q book op 0 perturb profile
        adv).executed_quantity_quote = 0) ∧
    (1 / 100 < q ∧ 0 < total_quantity (walk_scope side order_type op book) →
      0 < (exec_totals side order_type op q book).2) ∧
    (∀ p0 q0 rest, walk_scope side order_type op book = (p0, q0) :: rest → 0 < q0 →
      0 < (exec_totals side order_type op q book).2) ∧
    (q - (exec_totals side order_type op q book).2 ≤ 1 / 100 ∨
      (exec_totals side order_type op q book).2
        = quote_capacity (walk_scope side order_type op book)) := by
  obtain ⟨hsides, -, hq, -, -, -⟩ := validate_inputs_elim hval
  have hP := exec_totals_eq_mwalk (q := q) hsides (fun l hl => (hbook l hl).1) hmkt
  have hbookP : ∀ l ∈ walk_scope side order_type op book, 0 < l.1 ∧ 0 ≤ l.2 :=
    fun l hl => hbook l (walk_scope_subset l hl)
  have hbookP0 : ∀ l ∈ walk_scope side order_type op book, 0 ≤ l.1 ∧ 0 ≤ l.2 :=
    fun l hl => ⟨(hbookP l hl).1.le, (hbookP l hl).2⟩
  refine ⟨?_, ?_, ?_, ?_, ?_, ?_⟩
  · rw [hP]
    exact mwalk_quote_le hq.le
  · intro he
    simp only [simulate_order_execution, hval, if_true, lt_self_iff_false, if_false]
    rw [if_neg (not_le.mpr he)]
    simp [success_result]
  · intro he
    simp only [simulate_order_execution, hval, if_true, lt_self_iff_false, if_false]
    rw [if_pos he]
    rfl
  · rintro ⟨hq2, hsum⟩
    rw [hP]
    rcases exists_pos_qty_of_sum_pos (fun l hl => (hbookP l hl).2) hsum with ⟨l, hl, hql⟩
    exact mwalk_quote_pos hq2 hbookP0
      ⟨l, hl, mul_pos (hbookP l hl).1 hql⟩
  · intro p0 q0 rest hPeq hq0
    rw [hP, hPeq]
    have hp0 : 0 < p0 := (hbookP (p0, q0) (by rw [hPeq]; simp)).1
    have hrest : ∀ l ∈ rest, 0 ≤ l.1 ∧ 0 ≤ l.2 := by
      intro l hl
      exact (hbookP0 l (by rw [hPeq]; exact List.mem_cons_of_mem _ hl))
    exact mwalk_quote_pos_head hq (mul_pos hp0 hq0) hrest
  · rw [hP]
    exact mwalk_stop hq.le hbookP0

/-- C4 counterexample: a valid marketable buy of 0.005 quote against a
non-empty ask side carrying total quantity 1 executes NOTHING — the
epsilon break fires after the zero-quantity top level — so the engine
returns the `fail` result, refuting the claim's "executed quote > 0
unless the contra side is empty or carries zero total quantity". -/
theorem tiny_order_zero_top_ask_cex :
    validate_inputs "buy" "market" (1/200) ⟨[(99, 1)], [(100, 0), (101, 1)]⟩ none
      = true ∧
    is_marketable "buy" "market" none ⟨[(99, 1)], [(100, 0), (101, 1)]⟩ = true ∧
    0 < total_quantity (book_side "buy" ⟨[(99, 1)], [(100, 0), (101, 1)]⟩) ∧
    (simulate_order_execution "buy" "market" (1/200) ⟨[(99, 1)], [(100, 0), (101, 1)]⟩
        none 0 (fun b _ => b) none default_adv).executed_quantity_quote = 0 ∧
    (simulate_order_execution "buy" "market" (1/200) ⟨[(99, 1)], [(100, 0), (101, 1)]⟩
        none 0 (fun b _ => b) none default_adv).execution_type = "fail" := by
  have hval : validate_inputs "buy" "market" (1/200) ⟨[(99, 1)], [(100, 0), (101, 1)]⟩
      none = true :=
    validate_inputs_intro (Or.inl lower_buy) (Or.inl lower_market) (by norm_num)
      (by simp) (by simp)
      (by intro h; rw [lower_market] at h; exact absurd h (by decide))
  refine ⟨hval, by decide, by norm_num [total_quantity, book_side, lower_buy], ?_, ?_⟩ <;>
  · simp only [simulate_order_execution, validate_inputs, exec_totals, is_marketable,
      book_side, walk_levels, execution_type_of, success_result, create_error_result,
      mid_price, best_bid, best_ask, round2, lower_buy, lower_market,
      market_ne_limit, buy_ne_sell]
    norm_num [market_ne_limit, buy_ne_sell]

/-- C4 witness: the amended theorem applied to a concrete marketable
buy. -/
theorem marketable_walk_bounds_witness :
    validate_inputs "buy" "market" 1000 ⟨[(99, 5)], [(100, 5)]⟩ none = true ∧
    is_marketable "buy" "market" none ⟨[(99, 5)], [(100, 5)]⟩ = true ∧
    (∀ l ∈ book_side "buy" ⟨[(99, 5)], [(100, 5)]⟩, 0 < l.1 ∧ 0 ≤ l.2) ∧
    ((exec_totals "buy" "market" none 1000 ⟨[(99, 5)], [(100, 5)]⟩).2 ≤ 1000 ∧
     (0 < (exec_totals "buy" "market" none 1000 ⟨[(99, 5)], [(100, 5)]⟩).2 →
       (simulate_order_execution "buy" "market" 1000 ⟨[(99, 5)], [(100, 5)]⟩ none 0
         (fun b _ => b) none default_adv).executed_quantity_quote
         = round2 (exec_totals "buy" "market" none 1000 ⟨[(99, 5)], [(100, 5)]⟩).2) ∧
     ((exec_totals "buy" "market" none 1000 ⟨[(99, 5)], [(100, 5)]⟩).2 ≤ 0 →
       (simulate_order_execution "buy" "market" 1000 ⟨[(99, 5)], [(100, 5)]⟩ none 0
         (fun b _ => b) none default_adv).executed_quantity_quote = 0) ∧
     (1 / 100 < (1000:ℚ) ∧
        0 < total_quantity (walk_scope "buy" "market" none ⟨[(99, 5)], [(100, 5)]⟩) →
       0 < (exec_totals "buy" "market" none 1000 ⟨[(99, 5)], [(100, 5)]⟩).2) ∧
     (∀ p0 q0 rest,
        walk_scope "buy" "market" none ⟨[(99, 5)], [(100, 5)]⟩ = (p0, q0) :: rest →
        0 < q0 → 0 < (exec_totals "buy" "market" none 1000 ⟨[(99, 5)], [(100, 5)]⟩).2) ∧
     (1000 - (exec_totals "buy" "market" none 1000 ⟨[(99, 5)], [(100, 5)]⟩).2 ≤ 1 / 100 ∨
      (exec_totals "buy" "market" none 1000 ⟨[(99, 5)], [(100, 5)]⟩).2
        = quote_capacity (walk_scope "buy" "market" none ⟨[(99, 5)], [(100, 5)]⟩))) :=
  ⟨by decide, by decide, by decide,
   marketable_walk_bounds "buy" "market" 1000 ⟨[(99, 5)], [(100, 5)]⟩ none
     (fun b _ => b) none default_adv (by decide) (by decide) (by decide)⟩



theorem best_bid_pos {book : OrderBook} (hne : book.bids ≠ [])
    (hpos : ∀ l ∈ book.bids, 0 < l.1) : 0 < best_bid book := by
  cases hb : book.bids with
  | nil => exact absurd hb hne
  | cons a t =>
    unfold best_bid
    rw [hb]
    simpa using hpos a (by rw [hb]; simp)

theorem best_ask_pos {book : OrderBook} (hne : book.asks ≠ [])
    (hpos : ∀ l ∈ book.asks, 0 < l.1) : 0 < best_ask book := by
  cases hb : book.asks with
  | nil => exact absurd hb hne
  | cons a t =>
    unfold best_ask
    rw [hb]
    simpa using hpos a (by rw [hb]; simp)

theorem walk_scope_pairwise {side order_type : String} {op : Option ℚ}
    {book : OrderBook} {R : ℚ × ℚ → ℚ × ℚ → Prop}
    (h : List.Pairwise R (book_side side book)) :
    List.Pairwise R (walk_scope side order_type op book) := by
  unfold walk_scope limit_cut
  split
  · split <;> exact h.sublist (List.takeWhile_sublist _)
  · exact h

theorem book_side_buy {side : String} {book : OrderBook} (hs : side.lower = "buy") :
    book_side side book = book.asks := by
  unfold book_side
  rw [if_pos hs]

theorem book_side_sell {side : String} {book : OrderBook} (hs : side.lower = "sell") :
    book_side side book = book.bids := by
  unfold book_side
  rw [if_neg (by rw [hs]; exact (by decide : ¬("sell" : String) = "buy"))]


namespace TradeSim

/-- C8: for a fixed book from the data model (asks ascending, bids
descending, positive prices, non-negative quantities), fixed side, type
and limit price, a positive default-ADV entry, and latency 0, increasing
the requested quantity never decreases the reported `slippage_pct` or
`market_impact_pct`: the walked quote is monotone in the budget, the
average fill price moves against the order as the walk deepens into a
sorted book, rounding is monotone, and the impact power law is monotone
in the executed quote. -/
theorem slippage_impact_monotone (side order_type : String) (book : OrderBook)
    (op : Option ℚ) (perturb : OrderBook → ℕ → OrderBook)
    (profile : Option (ℚ × ℚ)) (adv : List (String × ℚ)) (q1 q2 : ℚ)
    (hval : validate_inputs side order_type q1 book op = true)
    (h12 : q1 ≤ q2)
    (hasks : List.Pairwise (fun a b : ℚ × ℚ => a.1 ≤ b.1) book.asks)
    (hbids : List.Pairwise (fun a b : ℚ × ℚ => b.1 ≤ a.1) book.bids)
    (hpos : ∀ l ∈ book.bids ++ book.asks, 0 < l.1 ∧ 0 ≤ l.2)
    (hadv : 0 < adv_get adv "default") :
    (simulate_order_execution side order_type q1 book op 0 perturb profile
        adv).slippage_pct
      ≤ (simulate_order_execution side order_type q2 book op 0 perturb profile
        adv).slippage_pct ∧
    (simulate_order_execution side order_type q1 book op 0 perturb profile
        adv).market_impact_pct
      ≤ (simulate_order_execution side order_type q2 book op 0 perturb profile
        adv).market_impact_pct := by
  obtain ⟨hsides, hB, hq1, hbne, hane, hF⟩ := validate_inputs_elim hval
  have hq2 : 0 < q2 := lt_of_lt_of_le hq1 h12
  have hval2 : validate_inputs side order_type q2 book op = true :=
    validate_inputs_intro hsides hB hq2 hbne hane hF
  have hposside : ∀ l ∈ book_side side book, 0 < l.1 ∧ 0 ≤ l.2 := by
    intro l hl
    unfold book_side at hl
    split at hl
    · exact hpos l (List.mem_append.mpr (Or.inr hl))
    · exact hpos l (List.mem_append.mpr (Or.inl hl))
  have hbidpos : ∀ l ∈ book.bids, 0 < l.1 :=
    fun l hl => (hpos l (List.mem_append.mpr (Or.inl hl))).1
  have haskpos : ∀ l ∈ book.asks, 0 < l.1 :=
    fun l hl => (hpos l (List.mem_append.mpr (Or.inr hl))).1
  have hmid : 0 < mid_price book := by
    have h1 := best_bid_pos hbne hbidpos
    have h2 := best_ask_pos hane haskpos
    unfold mid_price
    linarith
  simp only [simulate_order_execution, hval, hval2, if_true, lt_self_iff_false, if_false]
  by_cases hmkt : is_marketable side order_type op book = true
  case neg =>
    rw [Bool.not_eq_true] at hmkt
    have h01 : exec_totals side order_type op q1 book = (0, 0) := by
      unfold exec_totals
      rw [hmkt]
      simp
    have h02 : exec_totals side order_type op q2 book = (0, 0) := by
      unfold exec_totals
      rw [hmkt]
      simp
    rw [h01, h02]
    norm_num
  case pos =>
    have hPmw1 := exec_totals_eq_mwalk (q := q1) hsides (fun l hl => (hposside l hl).1) hmkt
    have hPmw2 := exec_totals_eq_mwalk (q := q2) hsides (fun l hl => (hposside l hl).1) hmkt
    rw [hPmw1, hPmw2]
    have hbookP : ∀ l ∈ walk_scope side order_type op book, 0 < l.1 ∧ 0 ≤ l.2 :=
      fun l hl => hposside l (walk_scope_subset l hl)
    have hbookP0 : ∀ l ∈ walk_scope side order_type op book, 0 ≤ l.1 ∧ 0 ≤ l.2 :=
      fun l hl => ⟨(hbookP l hl).1.le, (hbookP l hl).2⟩
    have he1n : 0 ≤ (mwalk q1 (walk_scope side order_type op book)).2 :=
      (mwalk_nonneg hq1.le hbookP0).2
    have hemono : (mwalk q1 (walk_scope side order_type op book)).2
        ≤ (mwalk q2 (walk_scope side order_type op book)).2 :=
      mwalk_quote_mono hq1.le h12 hbookP0
    by_cases he2 : (mwalk q2 (walk_scope side order_type op book)).2 ≤ 0
    · rw [if_pos (le_trans hemono he2), if_pos he2]
      exact ⟨le_refl _, le_refl _⟩
    · push_neg at he2
      rw [if_neg (not_le.mpr he2)]
      by_cases he1 : (mwalk q1 (walk_scope side order_type op book)).2 ≤ 0
      · rw [if_pos he1]
        constructor
        · simp only [create_error_result, success_result]
          exact round2_nonneg (calculate_slippage_nonneg _ _ _ _)
        · simp only [create_error_result, success_result]
          exact round_r2_nonneg (calculate_impact_nonneg _ _ _ _ _ he2.le hadv.le)
      · push_neg at he1
        rw [if_neg (not_le.mpr he1)]
        have hb1 : 0 < (mwalk q1 (walk_scope side order_type op book)).1 :=
          mwalk_base_pos hbookP hq1.le he1
        have hb2 : 0 < (mwalk q2 (walk_scope side order_type op book)).1 :=
          mwalk_base_pos hbookP hq2.le he2
        constructor
        · simp only [success_result]
          rw [if_pos hb1, if_pos hb2]
          apply round2_mono
          have havg1 : 0 < (mwalk q1 (walk_scope side order_type op book)).2
              / (mwalk q1 (walk_scope side order_type op book)).1 := div_pos he1 hb1
          have havg2 : 0 < (mwalk q2 (walk_scope side order_type op book)).2
              / (mwalk q2 (walk_scope side order_type op book)).1 := div_pos he2 hb2
          unfold calculate_slippage
          rw [if_neg (not_or.mpr ⟨not_le.mpr hmid, not_le.mpr havg1⟩),
            if_neg (not_or.mpr ⟨not_le.mpr hmid, not_le.mpr havg2⟩)]
          rcases hsides with hs | hs
          · rw [hs]
            simp only [if_true, eq_self_iff_true, if_pos rfl]
            apply max_le_max le_rfl
            have hasc : List.Pairwise (fun a b : ℚ × ℚ => a.1 ≤ b.1)
                (walk_scope side order_type op book) :=
              walk_scope_pairwise (by rw [book_side_buy hs]; exact hasks)
            have hcross := mwalk_avg_mono hasc hbookP hq1.le h12
            have havgle := (div_le_div_iff hb1 hb2).mpr hcross
            have hdiv := (div_le_div_right hmid).mpr
              (by linarith :
                (mwalk q1 (walk_scope side order_type op book)).2
                  / (mwalk q1 (walk_scope side order_type op book)).1 - mid_price book
                ≤ (mwalk q2 (walk_scope side order_type op book)).2
                  / (mwalk q2 (walk_scope side order_type op book)).1 - mid_price book)
            exact mul_le_mul_of_nonneg_right hdiv (by norm_num)
          · rw [hs]
            rw [if_neg (by decide : ¬("sell" : String) = "buy"),
              if_neg (by decide : ¬("sell" : String) = "buy")]
            apply max_le_max le_rfl
            have hdesc : List.Pairwise (fun a b : ℚ × ℚ => b.1 ≤ a.1)
                (walk_scope side order_type op book) :=
              walk_scope_pairwise (by rw [book_side_sell hs]; exact hbids)
            have hcross := mwalk_avg_antimono hdesc hbookP hq1.le h12
            have havgle := (div_le_div_iff hb2 hb1).mpr hcross
            have hdiv := (div_le_div_right hmid).mpr
              (by linarith :
                mid_price book - (mwalk q1 (walk_scope side order_type op book)).2
                  / (mwalk q1 (walk_scope side order_type op book)).1
                ≤ mid_price book - (mwalk q2 (walk_scope side order_type op book)).2
                  / (mwalk q2 (walk_scope side order_type op book)).1)
            exact mul_le_mul_of_nonneg_right hdiv (by norm_num)
        · simp only [success_result]
          exact round_r2_mono (calculate_impact_mono side book "default" adv he1n hemono hadv)


namespace TradeSim

/-- C8 witness: the monotonicity theorem at a concrete two-level book
with quantities 100 and 900. -/
theorem slippage_impact_monotone_witness :
    validate_inputs "buy" "market" 100 ⟨[(99, 5), (98, 4)], [(100, 5), (101, 4)]⟩ none
      = true ∧
    (100 : ℚ) ≤ 900 ∧
    List.Pairwise (fun a b : ℚ × ℚ => a.1 ≤ b.1) [((100:ℚ), (5:ℚ)), (101, 4)] ∧
    List.Pairwise (fun a b : ℚ × ℚ => b.1 ≤ a.1) [((99:ℚ), (5:ℚ)), (98, 4)] ∧
    (∀ l ∈ ([(99, 5), (98, 4)] ++ [(100, 5), (101, 4)] : List (ℚ × ℚ)),
      0 < l.1 ∧ 0 ≤ l.2) ∧
    0 < adv_get default_adv "default" ∧
    ((simulate_order_execution "buy" "market" 100
        ⟨[(99, 5), (98, 4)], [(100, 5), (101, 4)]⟩ none 0 (fun b _ => b) none
        default_adv).slippage_pct
      ≤ (simulate_order_execution "buy" "market" 900
        ⟨[(99, 5), (98, 4)], [(100, 5), (101, 4)]⟩ none 0 (fun b _ => b) none
        default_adv).slippage_pct ∧
     (simulate_order_execution "buy" "market" 100
        ⟨[(99, 5), (98, 4)], [(100, 5), (101, 4)]⟩ none 0 (fun b _ => b) none
        default_adv).market_impact_pct
      ≤ (simulate_order_execution "buy" "market" 900
        ⟨[(99, 5), (98, 4)], [(100, 5), (101, 4)]⟩ none 0 (fun b _ => b) none
        default_adv).market_impact_pct) :=
  ⟨by decide, by norm_num, by decide, by decide, by decide, by decide,
   slippage_impact_monotone "buy" "market" ⟨[(99, 5), (98, 4)], [(100, 5), (101, 4)]⟩
     none (fun b _ => b) none default_adv 100 900 (by decide) (by norm_num) (by decide)
     (by decide) (by decide) (by decide)⟩


end TradeSim
